import Mathlib

/-!
Verification development for the Web2Figma pipeline (browser-side capture of a
styled DOM tree into a serializable layer tree, and Figma-side synthesis of
that tree into native nodes).

Modelling conventions:
* JS strings are modelled as `List Char` (`Str`); only the ASCII fragment
  relevant to computed-style strings is needed.
* JS numbers inside the colour parser are modelled as `Option ℚ` (`JNum`),
  with `none` standing for JS `NaN`; elsewhere exact rationals `ℚ` stand for
  JS floats (the code performs only +, -, *, / on values where the claims are
  about the algebraic relationships, not rounding).
* A JS `TypeError` (the one reachable crash in `parseColor`, on the input
  `"#"`) is modelled with `Except Unit`.
-/

namespace Web2Figma

/-- Strings as character lists. -/
abbrev Str := List Char

/-- The characters collapsed by `collapseWhitespace` (`/[\t\n\r ]+/`), also
used to model `\s` (computed-style strings only contain these whitespace
characters). -/
def isWsChar (c : Char) : Bool := c = '\t' || c = '\n' || c = '\r' || c = ' '

/-- ASCII decimal digit, JS `\d`. -/
def isDig (c : Char) : Bool := 48 ≤ c.toNat && c.toNat ≤ 57

/-- ASCII hex digit (JS `parseInt(-, 16)` digit set). -/
def isHexDig (c : Char) : Bool :=
  isDig c || (97 ≤ c.toNat && c.toNat ≤ 102) || (65 ≤ c.toNat && c.toNat ≤ 70)

/-- `s.includes(pat)`: `pat` occurs as a contiguous substring of `s`. -/
def strIncludes (pat : Str) : Str → Bool
  | [] => pat.isEmpty
  | c :: rest => pat.isPrefixOf (c :: rest) || strIncludes pat rest

def hexDigitVal (c : Char) : Nat :=
  if isDig c then c.toNat - 48
  else if 97 ≤ c.toNat then c.toNat - 87
  else c.toNat - 55

def digitsValAux (acc : Nat) : Str → Nat
  | [] => acc
  | c :: cs => digitsValAux (10 * acc + (c.toNat - 48)) cs

/-- Value of a nonempty decimal digit string (JS `parseInt` on a `\d+` group). -/
def digitsVal (s : Str) : Nat := digitsValAux 0 s

def hexValAux (acc : Nat) : Str → Nat
  | [] => acc
  | c :: cs => hexValAux (16 * acc + hexDigitVal c) cs

def hexVal (s : Str) : Nat := hexValAux 0 s

/-!
Kernel-computable rational arithmetic.  The standard `Rat` operations are
elaborator-irreducible, which would prevent witnesses and counterexamples
from being checked by `decide`/`rfl`; the `q*` operations below compute the
same values through `mkRat`/`num`/`den` and are proved equal to the standard
operations (`qdiv_eq_div` etc., after the definitions), so abstract theorems
can still use ordinary field reasoning.
-/

/-- `a / b` on ℚ, kernel-computable.  Equal to `a / b` (`qdiv_eq_div`). -/
def qdiv (a b : ℚ) : ℚ :=
  if b.num < 0 then mkRat (-(a.num * (b.den : ℤ))) (a.den * b.num.natAbs)
  else mkRat (a.num * (b.den : ℤ)) (a.den * b.num.natAbs)

/-- `a + b` on ℚ, kernel-computable.  Equal to `a + b` (`qadd_eq_add`). -/
def qadd (a b : ℚ) : ℚ :=
  mkRat (a.num * (b.den : ℤ) + b.num * (a.den : ℤ)) (a.den * b.den)

/-- `a - b` on ℚ, kernel-computable.  Equal to `a - b` (`qsub_eq_sub`). -/
def qsub (a b : ℚ) : ℚ :=
  mkRat (a.num * (b.den : ℤ) - b.num * (a.den : ℤ)) (a.den * b.den)

/-- `a ≤ b` on ℚ as a kernel-computable Bool (`qle_iff`). -/
def qle (a b : ℚ) : Bool := a.num * (b.den : ℤ) ≤ b.num * (a.den : ℤ)

/-- `a < b` on ℚ as a kernel-computable Bool (`qlt_iff`). -/
def qlt (a b : ℚ) : Bool := !(qle b a)

/-- `-a` on ℚ, kernel-computable (`qneg_eq_neg`). -/
def qneg (a : ℚ) : ℚ := mkRat (-a.num) a.den

/-- JS `Math.max(a, b)` (`qmax_eq_max`). -/
def qmax (a b : ℚ) : ℚ := if qle a b then b else a

/-- JS `Math.abs(a)` (`qabs_eq_abs`). -/
def qabs (a : ℚ) : ℚ := if qle 0 a then a else qneg a

/-- A JS number that may be `NaN` (`none`). -/
abbrev JNum := Option ℚ

/-- `v / 255` with NaN propagation. -/
def jdiv255 (v : JNum) : JNum := v.map (fun q => qdiv q 255)

/-- `l[i]` followed by use as a number: an out-of-range JS index gives
`undefined`, and `undefined` used in arithmetic becomes `NaN`. -/
def jsIdx (l : List JNum) (i : Nat) : JNum :=
  match l.get? i with
  | none => none
  | some v => v

/-- JS `parseInt(s, 16)`: value of the maximal hex-digit prefix, `NaN` when
that prefix is empty.  (Leading whitespace / sign / `0x` handling is not
modelled; the call sites only pass raw character chunks.) -/
def jsParseIntHex (s : Str) : JNum :=
  let pre := s.takeWhile isHexDig
  if pre.isEmpty then none else some (hexVal pre)

/-- JS `parseFloat` restricted to strings drawn from `[\d.]` (the only shape
the colour parser feeds it): integer part, optional dot and fractional part,
`NaN` when no digit is consumed. -/
def jsParseFloatDD (s : Str) : JNum :=
  let ds1 := s.takeWhile isDig
  match s.drop ds1.length with
  | '.' :: rest2 =>
    let ds2 := rest2.takeWhile isDig
    if ds1.isEmpty && ds2.isEmpty then none
    else some (qadd (digitsVal ds1 : ℚ) (qdiv (digitsVal ds2 : ℚ) ((10 ^ ds2.length : ℕ) : ℚ)))
  | _ => if ds1.isEmpty then none else some (digitsVal ds1)

/-- `hex.match(/.{1,2}/g)`: chunks of two characters, a final odd character
alone; the empty string gives `null` (handled at the call site). -/
def chunks2 : Str → List Str
  | [] => []
  | [c] => [[c]]
  | a :: b :: rest => [a, b] :: chunks2 rest

structure JsColor where
  r : JNum
  g : JNum
  b : JNum
  a : JNum
deriving DecidableEq, Repr

/-- Capture groups of `/rgba?\((\d+),\s*(\d+),\s*(\d+)(?:,\s*([\d.]+))?\)/`. -/
structure RgbaGroups where
  g1 : Str
  g2 : Str
  g3 : Str
  g4 : Option Str
deriving DecidableEq, Repr

/-- Matches the part of the rgba pattern after the opening parenthesis.
The greedy classes never need backtracking here (a digit run is followed by a
required non-digit, etc.); the optional fourth component is tried first and,
on failure, the pattern cannot succeed without it either (the next char would
have to be both `,` and `)`), faithfully to the regex. -/
def matchRgbaBody (s : Str) : Option RgbaGroups :=
  let d1 := s.takeWhile isDig
  if d1.isEmpty then none else
  match s.drop d1.length with
  | ',' :: r1 =>
    let t1 := r1.dropWhile isWsChar
    let d2 := t1.takeWhile isDig
    if d2.isEmpty then none else
    match t1.drop d2.length with
    | ',' :: r2 =>
      let t2 := r2.dropWhile isWsChar
      let d3 := t2.takeWhile isDig
      if d3.isEmpty then none else
      match t2.drop d3.length with
      | ',' :: r3 =>
        let t3 := r3.dropWhile isWsChar
        let d4 := t3.takeWhile (fun c => isDig c || c = '.')
        if d4.isEmpty then none else
        match t3.drop d4.length with
        | ')' :: _ => some ⟨d1, d2, d3, some d4⟩
        | _ => none
      | ')' :: _ => some ⟨d1, d2, d3, none⟩
      | _ => none
    | _ => none
  | _ => none

/-- Try the rgba pattern anchored at the start of `s` (`rgb`, optional `a`,
then `(` and the body). -/
def matchRgbaAt (s : Str) : Option RgbaGroups :=
  match s with
  | 'r' :: 'g' :: 'b' :: rest =>
    (match rest with
     | 'a' :: '(' :: body => matchRgbaBody body
     | _ => none) <|>
    (match rest with
     | '(' :: body => matchRgbaBody body
     | _ => none)
  | _ => none

/-- Unanchored regex search: first position where the rgba pattern matches. -/
def searchRgba : Str → Option RgbaGroups
  | [] => none
  | c :: rest => matchRgbaAt (c :: rest) <|> searchRgba rest

/-- Components built from the `im` array of a hex parse
(`im[3] !== undefined ? im[3] / 255 : 1` for alpha). -/
def colorOfIm (im : List JNum) : JsColor :=
  ⟨jdiv255 (jsIdx im 0), jdiv255 (jsIdx im 1), jdiv255 (jsIdx im 2),
   match im.get? 3 with
   | none => some 1
   | some v => jdiv255 v⟩

/-- `parseColor` of figma-plugin/code.js (the variant accepting both
`rgb()/rgba()` and hex forms).  `none` input models JS null/undefined; the
`.error` case is the `TypeError` thrown for the input `"#"` (where
`"".match(/.{1,2}/g)` is `null` and `.map` is called on it). -/
def parseColor (colorString : Option Str) : Except Unit JsColor :=
  match colorString with
  | none => .ok ⟨some 0, some 0, some 0, some 0⟩
  | some s =>
    if s = [] ∨ s = "transparent".toList then .ok ⟨some 0, some 0, some 0, some 0⟩
    else
      match s with
      | '#' :: hex =>
        if hex.length = 3 ∨ hex.length = 4 then
          .ok (colorOfIm (hex.map (fun c => jsParseIntHex [c, c])))
        else if hex = [] then .error ()
        else .ok (colorOfIm ((chunks2 hex).map jsParseIntHex))
      | _ =>
        match searchRgba s with
        | none => .ok ⟨some 0, some 0, some 0, some 1⟩
        | some m =>
          .ok ⟨some (qdiv (digitsVal m.g1 : ℚ) 255), some (qdiv (digitsVal m.g2 : ℚ) 255),
               some (qdiv (digitsVal m.g3 : ℚ) 255),
               match m.g4 with
               | some g => jsParseFloatDD g
               | none => some 1⟩

/-- Fully transparent black, the degraded value for absent/`transparent`
input. -/
def transparentBlack : JsColor := ⟨some 0, some 0, some 0, some 0⟩

/-- Opaque black, the fail-safe for unparseable present input. -/
def opaqueBlack : JsColor := ⟨some 0, some 0, some 0, some 1⟩

/-! ### Gradient parser (`parseGradients`) -/

structure GradientStop where
  color : JsColor
  position : ℚ
deriving DecidableEq, Repr

/-- A `GRADIENT_LINEAR` fill as produced by `parseGradients` (the
`gradientTransform` is the constant top-to-bottom matrix). -/
structure GradientLinear where
  gradientStops : List GradientStop
  gradientTransform : List (List ℚ)
deriving DecidableEq, Repr

/-- The lookahead `(?![^(]*\))` of the splitting regex: succeeds when a `)`
appears before any `(` in the rest of the string. -/
def parenLookahead (t : Str) : Bool :=
  (t.takeWhile (fun c => c ≠ '(')).any (fun c => c = ')')

/-- `split(/,(?![^(]*\))/)`: split on commas that are not inside
parentheses. -/
def splitTopComma : Str → List Str
  | [] => [[]]
  | c :: rest =>
    if c = ',' && !(parenLookahead rest) then [] :: splitTopComma rest
    else
      match splitTopComma rest with
      | [] => [[c]]
      | g :: gs => (c :: g) :: gs

/-- Suffix following the first occurrence of `pat` (regex literal search). -/
def afterFirstOcc (pat : Str) : Str → Option Str
  | [] => if pat.isEmpty then some [] else none
  | c :: rest =>
    if pat.isPrefixOf (c :: rest) then some ((c :: rest).drop pat.length)
    else afterFirstOcc pat rest

/-- Characters before the last `)` of `t`, or `none` when `t` has no `)`.
This is the greedy `(.*)\)` of `/linear-gradient\((.*)\)/` (computed
background-image strings contain no newline, so `.` is any character). -/
def upToLastParen (t : Str) : Option Str :=
  let dr := t.reverse.dropWhile (fun c => c ≠ ')')
  match dr with
  | [] => none
  | _ :: restRev => some restRev.reverse

/-- `s.match(/linear-gradient\((.*)\)/)`: the capture group.  If the first
occurrence of `linear-gradient(` has no later `)`, no later occurrence has
one either, so searching from the first occurrence is faithful. -/
def linearGradientInner (s : Str) : Option Str :=
  match afterFirstOcc ("linear-gradient(".toList) s with
  | none => none
  | some t => upToLastParen t

/-- The character class `[a-fA-F0-0]` of the gradient stop regex: note the
degenerate range `0-0`, so only the digit `0` is accepted. -/
def hexTokenClass (c : Char) : Bool :=
  (97 ≤ c.toNat && c.toNat ≤ 102) || (65 ≤ c.toNat && c.toNat ≤ 70) || c = '0'

/-- `.*?\)` after an opening parenthesis: the (lazy) characters through the
first `)`. -/
def upToFirstCloseParen (t : Str) : Option Str :=
  if t.any (fun c => c = ')') then some (t.takeWhile (fun c => c ≠ ')') ++ [')'])
  else none

/-- Try `rgba?\(.*?\)` anchored at the start of `s`, returning the matched
token.  If the `a` path fails for lack of `)`, the no-`a` path also fails
(it would need `(` where `a` stands), as under regex backtracking. -/
def tryRgbToken (s : Str) : Option Str :=
  match s with
  | 'r' :: 'g' :: 'b' :: 'a' :: '(' :: body =>
    (upToFirstCloseParen body).map (fun x => 'r' :: 'g' :: 'b' :: 'a' :: '(' :: x)
  | 'r' :: 'g' :: 'b' :: '(' :: body =>
    (upToFirstCloseParen body).map (fun x => 'r' :: 'g' :: 'b' :: '(' :: x)
  | _ => none

/-- Try `#[a-fA-F0-0]{3,6}` anchored at the start of `s` (greedy, at most 6
class characters, at least 3). -/
def tryHexToken (s : Str) : Option Str :=
  match s with
  | '#' :: rest =>
    let run := rest.takeWhile hexTokenClass
    if 3 ≤ run.length then some ('#' :: run.take 6) else none
  | _ => none

/-- `part.match(/rgba?\(.*?\)|#[a-fA-F0-0]{3,6}/)`: leftmost match, first
alternative preferred at equal positions. -/
def firstColorToken : Str → Option Str
  | [] => none
  | c :: rest => (tryRgbToken (c :: rest) <|> tryHexToken (c :: rest)) <|> firstColorToken rest

/-- The stop-collection loop of `parseGradients`: `count` is the number of
stops already pushed, `denom` the fixed `parts.length - 1`.  `qdiv k 0 = 0`
here models the JS `0/0 = NaN` case, which is unreachable in a returned
gradient (it requires a single segment, hence fewer than two stops). -/
def collectStops (denom : Nat) : List Str → Nat → Except Unit (List GradientStop)
  | [], _ => .ok []
  | p :: ps, count =>
    match firstColorToken p with
    | none => collectStops denom ps count
    | some tok =>
      match parseColor (some tok) with
      | .error e => .error e
      | .ok c =>
        (collectStops denom ps (count + 1)).map
          (fun rest2 => ⟨c, qdiv (count : ℚ) (denom : ℚ)⟩ :: rest2)

/-- `parseGradients` (figma-plugin/code.js). -/
def parseGradients (gradientString : Option Str) : Except Unit (List GradientLinear) :=
  match gradientString with
  | none => .ok []
  | some s =>
    if s = [] ∨ s = "none".toList ∨ !(strIncludes "gradient".toList s) then .ok []
    else
      match linearGradientInner s with
      | none => .ok []
      | some inner =>
        let parts := splitTopComma inner
        (collectStops (parts.length - 1) parts 0).map
          (fun stops =>
            if stops.length < 2 then []
            else [⟨stops, [[1, 0, 0], [0, 1, 0]]⟩])

/-! ### Font resolver (`safeLoadFont`) -/

structure FontName where
  family : Str
  style : Str
deriving DecidableEq, Repr

/-- `style.replace(/\s+/g, '')`. -/
def stripWsAll (s : Str) : Str := s.filter (fun c => !(isWsChar c))

def isLowerAZ (c : Char) : Bool := 97 ≤ c.toNat && c.toNat ≤ 122
def isUpperAZ (c : Char) : Bool := 65 ≤ c.toNat && c.toNat ≤ 90

/-- `style.replace(/([a-z])([A-Z])/g, '$1 $2')`: a space in every
lowercase→uppercase transition; the scan resumes after each replaced pair. -/
def insertCamelBounds : Str → Str
  | [] => []
  | [c] => [c]
  | a :: b :: rest =>
    if isLowerAZ a && isUpperAZ b then a :: ' ' :: b :: insertCamelBounds rest
    else a :: insertCamelBounds (b :: rest)

/-- ASCII `toLowerCase` (font style names are ASCII). -/
def toLowerStr (s : Str) : Str := s.map Char.toLower

/-- `[...new Set(a)]`: keep the first occurrence of each element, in
insertion order. -/
def jsSetDedupAux (seen : List Str) : List Str → List Str
  | [] => []
  | x :: xs =>
    if seen.contains x then jsSetDedupAux seen xs
    else x :: jsSetDedupAux (seen ++ [x]) xs

def jsSetDedup (l : List Str) : List Str := jsSetDedupAux [] l

/-- Whether the requested style looks bold- or semi-bold-like. -/
def boldish (style : Str) : Bool :=
  strIncludes ("bold".toList) (toLowerStr style) || strIncludes ("semi".toList) (toLowerStr style)

/-- The `variations` array built by `safeLoadFont`, in push order. -/
def safeLoadFontVariations (style : Str) : List Str :=
  [style, stripWsAll style, insertCamelBounds style] ++
    (if boldish style then ["Bold".toList, "Semi Bold".toList, "Medium".toList] else []) ++
    ["Regular".toList]

/-- First style in the list that loads (the try/catch loop over variations;
`loadOk` is the `figma.loadFontAsync` success oracle). -/
def firstLoadable (loadOk : FontName → Bool) (family : Str) : List Str → Option FontName
  | [] => none
  | v :: vs => if loadOk ⟨family, v⟩ then some ⟨family, v⟩ else firstLoadable loadOk family vs

def interRegular : FontName := ⟨"Inter".toList, "Regular".toList⟩

/-- `safeLoadFont`.  `createTextDefault` models `figma.createText().fontName`,
the font Figma assigns to a fresh text node. -/
def safeLoadFont (loadOk : FontName → Bool) (createTextDefault : FontName)
    (fontName : FontName) : FontName :=
  match firstLoadable loadOk fontName.family (jsSetDedup (safeLoadFontVariations fontName.style)) with
  | some f => f
  | none => if loadOk interRegular then interRegular else createTextDefault

/-- The fallback chain exactly as the specification words it: exact style,
whitespace removed, word boundaries re-inserted, the generic bold-ish
styles when applicable, then `Regular` (no mention of de-duplication). -/
def specFallbackStyles (style : Str) : List Str :=
  [style, stripWsAll style, insertCamelBounds style] ++
    (if boldish style then ["Bold".toList, "Semi Bold".toList, "Medium".toList] else []) ++
    ["Regular".toList]

/-! ### Captured layer tree (the IR as built by `captureNode`)

Visual payload that no claim depends on (coordinates, sizes, fills, strokes,
effects, radii, text style metadata, table-gap fields, image/svg payload) is
not modelled; the structural fields below are exactly the ones the
stacking-order sorter, the rich-text builder and the traversal bounds
read or write. -/

/-- A computed `z-index` is either the string `'auto'` or an integer
string; `parseInt` on the latter yields the integer. -/
inductive ZVal where
  | auto
  | num (n : ℤ)
deriving DecidableEq, Repr

inductive LKind where
  | FRAME
  | TEXT
  | IMAGE
  | SVG
  | RECTANGLE
deriving DecidableEq, Repr

inductive ListMarker where
  | ordered
  | unordered
deriving DecidableEq, Repr

/-- A rich-text style range; `stop` is the source's `end` (a Lean keyword).
The per-range font/fill/decoration/link metadata is not modelled (no claim
constrains it); `listOptions` is kept because the list-item pass rewrites
every range. -/
structure StyleRange where
  start : Nat
  stop : Nat
  listOptions : Option ListMarker
deriving DecidableEq, Repr

/-- A captured layer.  `zKey`/`posKey`/`floatKey` are the temporary
`_zIndex`/`_position`/`_float` sort keys (`none` = the field is absent or
was deleted). -/
inductive LayerNode where
  | mk (kind : LKind) (characters : Str) (styleRanges : List StyleRange)
      (zKey : Option ZVal) (posKey : Option Str) (floatKey : Option Str)
      (children : List LayerNode)
deriving Repr

def LayerNode.kind : LayerNode → LKind
  | .mk k _ _ _ _ _ _ => k

def LayerNode.characters : LayerNode → Str
  | .mk _ c _ _ _ _ _ => c

def LayerNode.styleRanges : LayerNode → List StyleRange
  | .mk _ _ r _ _ _ _ => r

def LayerNode.zKey : LayerNode → Option ZVal
  | .mk _ _ _ z _ _ _ => z

def LayerNode.posKey : LayerNode → Option Str
  | .mk _ _ _ _ p _ _ => p

def LayerNode.floatKey : LayerNode → Option Str
  | .mk _ _ _ _ _ f _ => f

def LayerNode.children : LayerNode → List LayerNode
  | .mk _ _ _ _ _ _ cs => cs

/-! ### Stacking-order sorter -/

/-- `childLayer._position || 'static'` / `childLayer._float || 'none'`:
JS `||` falls through on `undefined` and on the empty string. -/
def jsStrDefault (v : Option Str) (d : Str) : Str :=
  match v with
  | none => d
  | some s => if s = [] then d else s

/-- `childLayer._zIndex === 'auto' ? 0 : parseInt(childLayer._zIndex || '0')`:
an absent key also yields 0. -/
def zIndexValOf (c : LayerNode) : ℤ :=
  match c.zKey with
  | some .auto => 0
  | some (.num n) => n
  | none => 0

/-- The paint-order weight assigned by the comparator in `captureNode`. -/
def getWeight (c : LayerNode) : ℤ :=
  if c.kind = .TEXT then 5
  else
    let zIndexVal : ℤ := zIndexValOf c
    let position := jsStrDefault c.posKey "static".toList
    let float := jsStrDefault c.floatKey "none".toList
    if position ≠ "static".toList then
      if zIndexVal < 0 then 1
      else if zIndexVal > 0 then 6 + zIndexVal
      else 6
    else if float ≠ "none".toList then 4
    else 3

/-- Stable insertion of `c` into a weight-sorted list: `c` goes before the
first element of strictly greater weight, i.e. after every earlier element
of equal weight. -/
def insertByWeight (c : LayerNode) : List LayerNode → List LayerNode
  | [] => [c]
  | d :: ds => if getWeight c ≤ getWeight d then c :: d :: ds else d :: insertByWeight c ds

/-- `children.sort((a, b) => weightA - weightB)`.  `Array.prototype.sort`
with this comparator is required (ES2019) to produce the unique permutation
that is ascending in weight and keeps equal-weight elements in original
order; stable insertion sort realizes exactly that (proved below:
permutation, sortedness, filter-stability). -/
def sortByWeight (l : List LayerNode) : List LayerNode := l.foldr insertByWeight []

/-- The `delete child._zIndex/_position/_float` pass (top-level fields of
one child). -/
def stripSortKeys : LayerNode → LayerNode
  | .mk k ch r _ _ _ cs => .mk k ch r none none none cs

/-! ### DOM model

A live DOM node is modelled together with the values the browser APIs would
return for it: every computed-style datum, geometry test or accessor the
extractor consults is a field.  Geometry is reduced to the Boolean tests the
control flow performs (`rectEmpty`, `rectTiny`); coordinates themselves feed
only elided payload.  Comment nodes (which `captureNode` ignores and
`isTextContainer` rejects) are not modelled. -/

structure TextData where
  /-- `node.textContent`. -/
  content : Str
  /-- The parent-element re-check (`display:none` / `visibility:hidden` /
  zero opacity).  When reached through the child loop this is always
  `false` (the parent was already filtered), but `captureNode` can also be
  called on a text node directly. -/
  parentHidden : Bool
  /-- `range.getClientRects().length === 0`. -/
  rectEmpty : Bool
deriving DecidableEq, Repr

structure ElemData where
  /-- `node.tagName`. -/
  tag : Str
  /-- `classList.contains('mjx-assistive-mml')`. -/
  mjxAssistive : Bool
  /-- `classList.contains('katex-html')`. -/
  katexHtmlClass : Bool
  /-- `getAttribute('aria-hidden') === 'true'`. -/
  ariaHiddenTrue : Bool
  /-- `style.clip === 'rect(1px, 1px, 1px, 1px)' || style.clipPath?.includes('polygon')`. -/
  clipHidden : Bool
  /-- `style.display === 'none'`. -/
  displayNone : Bool
  /-- `style.visibility === 'hidden'`. -/
  visibilityHidden : Bool
  /-- `parseFloat(style.opacity) === 0`. -/
  opacityZero : Bool
  /-- `rect.width < 1 && rect.height < 1`. -/
  rectTiny : Bool
  /-- `getMathContent(node)` (the recovered TeX source, when any). -/
  mathContent : Option Str
  /-- `whiteSpace` ∈ {`pre`, `pre-wrap`, `pre-line`, `break-spaces`}. -/
  preserveWs : Bool
  /-- `parseColor(style.backgroundColor).a > 0 || backgroundImage !== 'none'`. -/
  bgVisibleOrImage : Bool
  /-- some `parseFloat(style.borderXWidth) > 0`. -/
  borderVisible : Bool
  /-- `display` ∈ {`flex`, `inline-flex`, `grid`, `inline-grid`}. -/
  flexOrGrid : Bool
  /-- `style.listStyleType`. -/
  listStyleType : Str
  /-- `style.position`. -/
  position : Str
  /-- `style.zIndex`. -/
  zIndex : ZVal
  /-- `style.float`. -/
  float : Str
  /-- `node.type` (form `input` elements). -/
  inputType : Str
  /-- `node.value` (form controls; `""` when empty). -/
  inputValue : Str
  /-- `node.placeholder` (`""` when absent). -/
  placeholder : Str
  /-- `options[selectedIndex]?.text` for a `select`. -/
  selectedText : Option Str
deriving DecidableEq, Repr

/-- A DOM node: a text node, or an element with its data, its (iframe)
content document's body when it has one, and its child nodes. -/
inductive DomNode where
  | text (t : TextData)
  | element (e : ElemData) (iframeBody : Option DomNode) (children : List DomNode)
deriving Repr

def IGNORED_TAGS : List Str :=
  ["SCRIPT", "STYLE", "NOSCRIPT", "TEMPLATE", "HEAD", "BR", "VIDEO", "CANVAS",
    "OBJECT", "EMBED"].map String.toList

def INLINE_TAGS : List Str :=
  ["SPAN", "STRONG", "B", "EM", "I", "A", "CODE", "SUB", "SUP", "LABEL",
    "MARK", "SMALL", "BR"].map String.toList

/-! ### Whitespace collapsing and rich text -/

/-- `text.replace(/[\t\n\r ]+/g, ' ')`: each whitespace run becomes a single
space (`inRun` tracks whether the previous character was part of a run). -/
def collapseRunsAux (inRun : Bool) : Str → Str
  | [] => []
  | c :: cs =>
    if isWsChar c then
      if inRun then collapseRunsAux true cs else ' ' :: collapseRunsAux true cs
    else c :: collapseRunsAux false cs

/-- JS `String.prototype.trim` (the modelled strings only contain the ASCII
whitespace of `isWsChar`). -/
def jsTrim (s : Str) : Str :=
  ((s.dropWhile isWsChar).reverse.dropWhile isWsChar).reverse

/-- `collapseWhitespace(text, trim)`. -/
def collapseWhitespace (text : Str) (trim : Bool) : Str :=
  let collapsed := collapseRunsAux false text
  if trim then jsTrim collapsed else collapsed

/-- `getListItemMarkerType` (reads `listStyleType`). -/
def getListItemMarkerType (e : ElemData) : Option ListMarker :=
  if e.listStyleType = "none".toList then none
  else if strIncludes "decimal".toList e.listStyleType
      || strIncludes "roman".toList e.listStyleType
      || strIncludes "alpha".toList e.listStyleType then some .ordered
  else some .unordered

/-- `isTextContainer` (figma-plugin/code.js variant). -/
def isTextContainer : DomNode → Bool
  | .text _ => false
  | .element e _ cs =>
    if cs.length = 0 then false
    else if e.bgVisibleOrImage || e.borderVisible then false
    else if e.flexOrGrid then false
    else cs.all fun child =>
      match child with
      | .text _ => true
      | .element ce _ _ =>
        if !(INLINE_TAGS.contains ce.tag) then false
        else if ce.flexOrGrid then false
        else true

/-- State of the rich-text walk: the accumulated text and ranges. -/
abbrev RTState := Str × List StyleRange

mutual

/-- The `walk` closure of `getRichTextData`.  A text node's whitespace mode
is its parent element's `whiteSpace` (`parentPws`); an element walks its
children under its own mode.  A pushed range records
`[text.length, text.length + content.length)` before the text is
appended. -/
def walkNode (parentPws : Bool) (st : RTState) : DomNode → RTState
  | .text t =>
    let content := if parentPws then t.content else collapseWhitespace t.content false
    if content.length > 0 then
      (st.1 ++ content, st.2 ++ [⟨st.1.length, st.1.length + content.length, none⟩])
    else st
  | .element e _ cs =>
    if e.displayNone then st
    else if e.tag = "BR".toList then (st.1 ++ ['\n'], st.2)
    else walkChildren e.preserveWs st cs

def walkChildren (pws : Bool) (st : RTState) : List DomNode → RTState
  | [] => st
  | c :: cs => walkChildren pws (walkNode pws st c) cs

end

structure RichText where
  text : Str
  ranges : List StyleRange
deriving DecidableEq, Repr

/-- The end-of-pass trim of `getRichTextData`: `text.trim()`, and when
characters were removed, every range is shifted left by `leadingSpaces` —
which the source computes from the already-reassigned (trimmed) `text`, so
it equals the total number of removed characters, leading and trailing
(`Math.max(0, n - k)` is ℕ-truncated subtraction). -/
def trimAndShift (st : RTState) : RTState :=
  let text0 := st.1
  let ranges0 := st.2
  let originalLength := text0.length
  let text := jsTrim text0
  let diff := originalLength - text.length
  if diff > 0 then
    let leadingSpaces := originalLength - (text.dropWhile isWsChar).length
    (text, ranges0.map fun r => ⟨r.start - leadingSpaces, r.stop - leadingSpaces, r.listOptions⟩)
  else (text, ranges0)

/-- The list-item pass: every range of an `LI` container receives the
marker metadata. -/
def stampListOptions (container : DomNode) (st : RTState) : RichText :=
  match container with
  | .element e _ _ =>
    if e.tag = "LI".toList then
      match getListItemMarkerType e with
      | some m => ⟨st.1, st.2.map fun r => ⟨r.start, r.stop, some m⟩⟩
      | none => ⟨st.1, st.2⟩
    else ⟨st.1, st.2⟩
  | .text _ => ⟨st.1, st.2⟩

/-- `getRichTextData` (figma-plugin/code.js variant): walk, then — only when
the container's own `whiteSpace` does not preserve whitespace — trim and
shift, then stamp list metadata. -/
def getRichTextData (container : DomNode) : RichText :=
  let pcw := match container with
    | .element e _ _ => e.preserveWs
    | .text _ => false
  let st := walkNode false ([], []) container
  stampListOptions container (if !pcw then trimAndShift st else st)

/-! ### The extractor (`captureNode`) -/

/-- The synthetic children created for form controls (`INPUT`/`TEXTAREA`/
`SELECT`): a colour input yields a swatch rectangle; otherwise the current
value — or, when the value is empty, the placeholder — yields a text child.
(The swatch fill, produced by `parseColor(node.value)`, is elided payload.) -/
def formControlChildren (e : ElemData) : List LayerNode :=
  if e.tag = "INPUT".toList ∨ e.tag = "TEXTAREA".toList ∨ e.tag = "SELECT".toList then
    if e.tag = "INPUT".toList ∧ e.inputType = "color".toList then
      [.mk .RECTANGLE [] [] none none none []]
    else
      let valueText0 :=
        if e.tag = "SELECT".toList then
          match e.selectedText with
          | some t => t
          | none => []
        else e.inputValue
      let valueText :=
        if e.tag ≠ "SELECT".toList ∧ valueText0 = [] ∧ e.placeholder ≠ [] then e.placeholder
        else valueText0
      if valueText ≠ [] then [.mk .TEXT valueText [] none none none []]
      else []
  else []

mutual

/-- `captureNode` (figma-plugin/code.js variant).  Only the structural
behaviour is modelled: the depth ceiling, the skip-set, every early-return
filter, the math/rich-text/SVG short-circuits, the iframe recursion, the
form-control synthetic children, the capped child loop, the stacking-order
sort and the sort-key strip.  Geometry and paint payload are elided. -/
def captureNode (skip : DomNode → Bool) (depth : Nat) (n : DomNode) : Option LayerNode :=
  if depth > 50 then none
  else if skip n then none
  else match n with
  | .text t =>
    let textContent := collapseWhitespace t.content true
    if textContent.length = 0 then none
    else if t.parentHidden then none
    else if t.rectEmpty then none
    else some (.mk .TEXT textContent [] (some .auto) (some "static".toList) (some "none".toList) [])
  | .element e ifb cs =>
    if IGNORED_TAGS.contains e.tag then none
    else if e.mjxAssistive then none
    else if (e.katexHtmlClass || e.ariaHiddenTrue) && e.clipHidden then none
    else if e.displayNone || e.visibilityHidden || e.opacityZero then none
    else if e.rectTiny && e.tag ≠ "BODY".toList then none
    else if hm : e.mathContent.isSome then
      some (.mk .TEXT (e.mathContent.get hm) [] (some e.zIndex) (some e.position) (some e.float) [])
    else
      let kind :=
        if e.tag = "IMG".toList then LKind.IMAGE
        else if e.tag = "svg".toList ∨ e.tag = "SVG".toList then LKind.SVG
        else LKind.FRAME
      if isTextContainer n ∧ cs.length > 0 ∧ (getRichTextData n).ranges.length > 0 then
        some (.mk kind [] [] (some e.zIndex) (some e.position) (some e.float)
          [.mk .TEXT (getRichTextData n).text (getRichTextData n).ranges none none none []])
      else if kind = .SVG then
        some (.mk kind [] [] (some e.zIndex) (some e.position) (some e.float) [])
      else
        let iframeChildren : List LayerNode :=
          if e.tag = "IFRAME".toList then
            match ifb with
            | some body => (captureNode skip (depth + 1) body).toList
            | none => []
          else []
        let allChildren :=
          iframeChildren ++ formControlChildren e ++ captureChildren skip (depth + 1) cs 0
        some (.mk kind [] [] (some e.zIndex) (some e.position) (some e.float)
          ((sortByWeight allChildren).map stripSortKeys))

/-- The child loop: `childCount` counts captured children and the loop
breaks once it exceeds 500; a `null` capture does not increment it. -/
def captureChildren (skip : DomNode → Bool) (depth : Nat) :
    List DomNode → Nat → List LayerNode
  | [], _ => []
  | c :: cs, count =>
    if count > 500 then []
    else match captureNode skip depth c with
      | some l => l :: captureChildren skip depth cs (count + 1)
      | none => captureChildren skip depth cs count

end

mutual

/-- Height of a captured layer tree (a leaf has height 1). -/
def heightL : LayerNode → Nat
  | .mk _ _ _ _ _ _ cs => 1 + heightLs cs

/-- Maximal height over a list of layers. -/
def heightLs : List LayerNode → Nat
  | [] => 0
  | c :: cs => max (heightL c) (heightLs cs)

end

mutual

/-- Every node of the tree has at most 502 children (the loop admits at
most 501, and at most one synthetic iframe/form child precedes them). -/
def widthOK : LayerNode → Bool
  | .mk _ _ _ _ _ _ cs => (cs.length ≤ 502) && widthOKs cs

/-- `widthOK` over a list of layers. -/
def widthOKs : List LayerNode → Bool
  | [] => true
  | c :: cs => widthOK c && widthOKs cs

end

/-! ### The synthesizer (`createLayer`, figma-plugin variant with arc
specialization)

The input is the deserialized IR; visual payload with no bearing on any
claim (names, text style application, auto-layout numbers, effects, corner
radii on the created node, clipsContent, svg/image payload) is elided.
Angles are stored in degrees; the source converts them to radians by the
fixed factor π/180 when filling `arcData`. -/

def qint (n : ℤ) : ℚ := mkRat n 1

/-- IR variant tag.  `ELLIPSE` is never produced by the capturer but the
synthesizer's circle test checks for it. -/
inductive SKind where
  | FRAME
  | TEXT
  | IMAGE
  | SVG
  | RECTANGLE
  | ELLIPSE
deriving DecidableEq, Repr

structure RGB where
  r : ℚ
  g : ℚ
  b : ℚ
deriving DecidableEq, Repr

inductive IRFill where
  | solid (color : RGB) (opacity : Option ℚ)
  | gradientLinear (gradientStops : List GradientStop) (gradientTransform : Option (List (List ℚ)))
  | other
deriving DecidableEq, Repr

structure IRStroke where
  color : RGB
  opacity : Option ℚ
deriving DecidableEq, Repr

inductive OutFill where
  | solid (color : RGB) (opacity : ℚ)
  | gradientLinear (gradientStops : List GradientStop) (gradientTransform : List (List ℚ))
deriving DecidableEq, Repr

structure OutStroke where
  color : RGB
  opacity : ℚ
deriving DecidableEq, Repr

structure ArcData where
  startDeg : ℚ
  stopDeg : ℚ
  innerRadius : ℚ
deriving DecidableEq, Repr

/-- The IR fields `createLayer` reads for the modelled behaviour. -/
structure IRProps where
  kind : SKind
  x : ℚ
  y : ℚ
  width : ℚ
  height : ℚ
  cornerRadius : Option ℚ
  topLeftRadius : Option ℚ
  opacity : Option ℚ
  fills : Option (List IRFill)
  strokes : Option (List IRStroke)
  strokeTopWeight : Option ℚ
  strokeRightWeight : Option ℚ
  strokeBottomWeight : Option ℚ
  strokeLeftWeight : Option ℚ
deriving DecidableEq, Repr

inductive IRData where
  | mk (d : IRProps) (children : List IRData)

def IRData.props : IRData → IRProps
  | .mk d _ => d

def IRData.children : IRData → List IRData
  | .mk _ cs => cs

/-- `data.fills.map(...).filter(Boolean)`: solids get default opacity 1,
linear gradients a default transform, anything else is dropped. -/
def synthFills (fs : List IRFill) : List OutFill :=
  fs.filterMap fun f =>
    match f with
    | .solid c o => some (.solid c (match o with | some v => v | none => 1))
    | .gradientLinear st gt =>
      some (.gradientLinear st (match gt with | some t => t | none => [[1, 0, 0], [0, 1, 0]]))
    | .other => none

/-- A created node.  `fills`/`strokes` are `none` while the corresponding
property of the freshly created node has not been assigned (so the design
tool's own default remains), and `some l` once the code assigned `l`. -/
structure SProps where
  kind : SKind
  x : ℚ
  y : ℚ
  w : ℚ
  h : ℚ
  fills : Option (List OutFill)
  strokes : Option (List OutStroke)
  arcData : Option ArcData
deriving DecidableEq, Repr

inductive SynthNode where
  | mk (p : SProps) (children : List SynthNode)

def SynthNode.props : SynthNode → SProps
  | .mk p _ => p

def SynthNode.children : SynthNode → List SynthNode
  | .mk _ cs => cs

/-- `data.cornerRadius >= bound` with JS semantics: comparing `undefined`
is false. -/
def optGe (o : Option ℚ) (bound : ℚ) : Bool :=
  match o with
  | some v => qle bound v
  | none => false

/-- `(data.strokeXWeight || 0)`. -/
def optW (o : Option ℚ) : ℚ :=
  match o with
  | some v => v
  | none => 0

/-- The near-circle test of the stroke branch:
`(FRAME or ELLIPSE) && |width - height| < 2 && (cornerRadius ≥ width/2 - 2
or topLeftRadius ≥ width/2 - 2)`. -/
def isCircleData (d : IRProps) : Bool :=
  (d.kind = SKind.FRAME || d.kind = SKind.ELLIPSE) &&
    qlt (qabs (qsub d.width d.height)) 2 &&
    (optGe d.cornerRadius (qsub (qdiv d.width 2) 2) ||
      optGe d.topLeftRadius (qsub (qdiv d.width 2) 2))

/-- `t !== r || r !== b || b !== l || l !== t` on the defaulted per-side
weights. -/
def hasUnequalBorders (d : IRProps) : Bool :=
  let t := optW d.strokeTopWeight
  let r := optW d.strokeRightWeight
  let b := optW d.strokeBottomWeight
  let l := optW d.strokeLeftWeight
  !(t = r && r = b && b = l && l = t : Bool)

/-- One 90° donut-arc primitive: a full-size ellipse at (0,0), filled with
the stroke colour, no strokes, `arcData` with inner radius
`max(0, (radius - w) / radius)`. -/
def arcFor (d : IRProps) (strokeColor : RGB) (opacity : ℚ) (w fromDeg toDeg : ℚ) : SynthNode :=
  .mk ⟨.ELLIPSE, 0, 0, d.width, d.height,
      some [.solid strokeColor opacity], some [],
      some ⟨fromDeg, toDeg, qmax 0 (qdiv (qsub (qdiv d.width 2) w) (qdiv d.width 2))⟩⟩ []

/-- The four 90° sectors, one per side, paired with that side's defaulted
stroke weight: top −135°..−45°, right −45°..45°, bottom 45°..135°, left
135°..225°. -/
def sectorsOf (d : IRProps) : List (ℚ × ℚ × ℚ) :=
  [(optW d.strokeTopWeight, qint (-135), qint (-45)),
   (optW d.strokeRightWeight, qint (-45), qint 45),
   (optW d.strokeBottomWeight, qint 45, qint 135),
   (optW d.strokeLeftWeight, qint 135, qint 225)]

/-- The stroke block of `createLayer`: either the donut-arc decomposition
(circle with unequal borders: per-side arcs appended as children, frame
strokes cleared) or the standard stroke mapping.  Returns the assigned
`strokes` value (`none` = left untouched) and the appended arc children. -/
def synthStrokesArcs (d : IRProps) : Option (List OutStroke) × List SynthNode :=
  match d.strokes with
  | some (s0 :: ss) =>
    if isCircleData d && hasUnequalBorders d then
      let strokeColor := s0.color
      let opacity := match s0.opacity with | some v => v | none => 1
      let arcs := (sectorsOf d).filterMap fun s =>
        if qlt 0 s.1 then some (arcFor d strokeColor opacity s.1 s.2.1 s.2.2) else none
      (some [], arcs)
    else
      (some ((s0 :: ss).map fun s => ⟨s.color, match s.opacity with | some v => v | none => 1⟩), [])
  | _ => (none, [])

mutual

/-- `createLayer` (unnamed/part_003 variant).  Sizing is clamped to 0.01;
position is the IR's absolute coordinates minus the parent's absolute
capture-time coordinates (`parentGlobalX/Y`); a frame without captured
fills gets its fill list explicitly emptied; children are created in IR
order with this node's capture-time coordinates as their parent-global
offset, after any synthesized arc children. -/
def createLayer : IRData → ℚ → ℚ → SynthNode
  | .mk d cs, parentGlobalX, parentGlobalY =>
    let fills : Option (List OutFill) :=
      match d.fills with
      | some fs =>
        if fs.length > 0 then some (synthFills fs)
        else if d.kind = .FRAME then some [] else none
      | none => if d.kind = .FRAME then some [] else none
    let sa := synthStrokesArcs d
    .mk ⟨d.kind, qsub d.x parentGlobalX, qsub d.y parentGlobalY,
        qmax d.width (mkRat 1 100), qmax d.height (mkRat 1 100),
        fills, sa.1, none⟩
      (sa.2 ++ createChildren cs d.x d.y)

/-- The sequential child loop (`await createLayer(childData, layer, data.x,
data.y)`). -/
def createChildren : List IRData → ℚ → ℚ → List SynthNode
  | [], _, _ => []
  | c :: cs, gx, gy => createLayer c gx gy :: createChildren cs gx gy

end

/-! ### Range-chain predicates

`chainFrom lo rs hi`: the ranges ascend strictly from `lo` (each range
nonempty, consecutive ranges non-overlapping) and end within `hi`.
`chainLe` is the same with `start ≤ stop` in place of `start < stop`. -/

def chainFrom (lo : Nat) : List StyleRange → Nat → Prop
  | [], hi => lo ≤ hi
  | r :: rs, hi => lo ≤ r.start ∧ r.start < r.stop ∧ chainFrom r.stop rs hi

def chainLe (lo : Nat) : List StyleRange → Nat → Prop
  | [], hi => lo ≤ hi
  | r :: rs, hi => lo ≤ r.start ∧ r.start ≤ r.stop ∧ chainLe r.stop rs hi

/-! ### Decidable bound predicates for the colour-range invariant -/

/-- The alpha component, when a fourth group was matched and parses to a
number, is at most 1 (computed styles satisfy this). -/
def alphaOKB (g4 : Option Str) : Bool :=
  match g4 with
  | none => true
  | some g =>
    match jsParseFloatDD g with
    | none => true
    | some q => qle q 1

/-- The input's rgba match (if any) carries components at most 255 and an
alpha at most 1 — the shape every computed-style colour string has. -/
def rgbaBoundedB (s : Str) : Bool :=
  match searchRgba s with
  | none => true
  | some m =>
    decide (digitsVal m.g1 ≤ 255) && decide (digitsVal m.g2 ≤ 255) &&
      decide (digitsVal m.g3 ≤ 255) && alphaOKB m.g4

/-! ### Concrete fixtures used by witnesses and counterexamples -/

/-- An ordinary visible element with tag `tag` and no special styling. -/
def plainElem (tag : String) : ElemData :=
  ⟨tag.toList, false, false, false, false, false, false, false, false, none,
    false, false, false, false, "disc".toList, "static".toList, .auto,
    "none".toList, [], [], [], none⟩

/-- `<p>\n  <b>Hi</b></p>`: a text container whose leading whitespace-only
text node collapses to a single space, which the end-of-pass trim then
squashes into a degenerate range. -/
def exRichTrim : DomNode :=
  .element (plainElem "P") none
    [.text ⟨"\n  ".toList, false, false⟩,
     .element (plainElem "B") none [.text ⟨"Hi".toList, false, false⟩]]

/-- A small page: a div with a paragraph of rich text and an image. -/
def exCapture : DomNode :=
  .element (plainElem "DIV") none
    [.element (plainElem "P") none [.text ⟨"Hello".toList, false, false⟩],
     .element (plainElem "IMG") none []]

/-- IR props with only kind/geometry set. -/
def baseIR (k : SKind) (x y w h : ℚ) : IRProps :=
  ⟨k, x, y, w, h, none, none, none, none, none, none, none, none, none⟩

def redRGB : RGB := ⟨1, 0, 0⟩

/-- The spec's stroke-specialization example: a 100×100 frame with radius
50 and per-side weights top=4, right=2, bottom=0, left=1. -/
def spinnerIR : IRData :=
  .mk { baseIR .FRAME 0 0 100 100 with
        cornerRadius := some 50,
        strokes := some [⟨redRGB, some 1⟩],
        strokeTopWeight := some 4, strokeRightWeight := some 2,
        strokeBottomWeight := some 0, strokeLeftWeight := some 1 } []

/-- A 10×10 circle whose top border weight (20) exceeds the radius (5), so
the inner-radius ratio is clamped. -/
def clampIR : IRData :=
  .mk { baseIR .FRAME 0 0 10 10 with
        cornerRadius := some 5,
        strokes := some [⟨redRGB, none⟩],
        strokeTopWeight := some 20, strokeRightWeight := some 1,
        strokeBottomWeight := some 0, strokeLeftWeight := some 0 } []

/-- The coordinate-relativity example: a child captured at (120,70) under a
parent captured at (100,50). -/
def childAt12070 : IRData := .mk (baseIR .FRAME 120 70 10 10) []

def parentAt10050 : IRData := .mk (baseIR .FRAME 100 50 200 200) [childAt12070]


deriving instance DecidableEq for Except


/-- A frame layer carrying the given sort keys (fixture for the sorter). -/
def frameZ (z : ZVal) (pos : Str) : LayerNode :=
  .mk .FRAME [] [] (some z) (some pos) (some "none".toList) []

/-! ## Theorems

Bridging lemmas for the kernel-computable rational operations, then the
claim theorems with their witnesses and counterexamples. -/

theorem rat_num_den_div (a b : ℚ) :
    a / b = ((a.num : ℚ) * (b.den : ℚ)) / ((a.den : ℚ) * (b.num : ℚ)) := by
  conv_lhs => rw [← Rat.num_div_den a, ← Rat.num_div_den b]
  rw [div_eq_mul_inv ((a.num : ℚ) / _), inv_div, div_mul_div_comm]

theorem qdiv_eq_div (a b : ℚ) : qdiv a b = a / b := by
  unfold qdiv
  split
  · rename_i h
    rw [Rat.mkRat_eq_div, rat_num_den_div a b]
    push_cast [Int.cast_natAbs]
    rw [abs_of_neg (show ((b.num : ℚ)) < 0 by exact_mod_cast h)]
    rw [mul_neg, neg_div_neg_eq]
  · rename_i h
    rw [Rat.mkRat_eq_div, rat_num_den_div a b]
    push_cast [Int.cast_natAbs]
    rw [abs_of_nonneg (show (0:ℚ) ≤ (b.num : ℚ) by exact_mod_cast not_lt.mp h)]

theorem qadd_eq_add (a b : ℚ) : qadd a b = a + b := by
  unfold qadd
  have ha : ((a.den : ℚ)) ≠ 0 := by exact_mod_cast a.den_nz
  have hb : ((b.den : ℚ)) ≠ 0 := by exact_mod_cast b.den_nz
  conv_rhs => rw [← Rat.num_div_den a, ← Rat.num_div_den b]
  rw [div_add_div _ _ ha hb, Rat.mkRat_eq_div]
  push_cast
  ring_nf

theorem qsub_eq_sub (a b : ℚ) : qsub a b = a - b := by
  unfold qsub
  have ha : ((a.den : ℚ)) ≠ 0 := by exact_mod_cast a.den_nz
  have hb : ((b.den : ℚ)) ≠ 0 := by exact_mod_cast b.den_nz
  conv_rhs => rw [← Rat.num_div_den a, ← Rat.num_div_den b]
  rw [div_sub_div _ _ ha hb, Rat.mkRat_eq_div]
  push_cast
  ring_nf

theorem qle_iff (a b : ℚ) : qle a b = true ↔ a ≤ b := by
  unfold qle
  rw [decide_eq_true_eq]
  have h1 : (0:ℚ) < (a.den : ℚ) := by exact_mod_cast a.pos
  have h2 : (0:ℚ) < (b.den : ℚ) := by exact_mod_cast b.pos
  rw [show (a ≤ b) ↔ ((a.num:ℚ)/(a.den:ℚ) ≤ (b.num:ℚ)/(b.den:ℚ)) by
        rw [Rat.num_div_den, Rat.num_div_den]]
  rw [div_le_div_iff₀ h1 h2]
  constructor
  · intro h; exact_mod_cast h
  · intro h; exact_mod_cast h

theorem qlt_iff (a b : ℚ) : qlt a b = true ↔ a < b := by
  unfold qlt
  rw [Bool.not_eq_true']
  rw [← Bool.not_eq_true (qle b a)]
  rw [qle_iff]
  exact (lt_iff_not_ge a b).symm

theorem qneg_eq_neg (a : ℚ) : qneg a = -a := by
  unfold qneg
  rw [Rat.mkRat_eq_div]
  push_cast
  rw [neg_div, Rat.num_div_den]

theorem qmax_eq_max (a b : ℚ) : qmax a b = max a b := by
  unfold qmax
  rw [max_def]
  by_cases h : a ≤ b
  · rw [if_pos (qle_iff a b |>.mpr h), if_pos h]
  · rw [if_neg (fun hc => h ((qle_iff a b).mp hc)), if_neg h]

theorem qabs_eq_abs (a : ℚ) : qabs a = |a| := by
  unfold qabs
  by_cases h : 0 ≤ a
  · rw [if_pos (qle_iff 0 a |>.mpr h), abs_of_nonneg h]
  · rw [if_neg (fun hc => h ((qle_iff 0 a).mp hc)), qneg_eq_neg,
      abs_of_neg (not_le.mp h)]

theorem qint_eq (n : ℤ) : qint n = (n : ℚ) := by
  unfold qint
  rw [Rat.mkRat_one]

end Web2Figma

namespace Web2Figma

/-- **C4**: `parseColor` yields transparent black for null/empty or
"transparent" input, the stated colours for `rgba(255,0,0,0.5)` and for the
3/4/6/8-digit hex forms, and opaque black for any present value with
neither a leading `#` nor an rgb()/rgba() match.  A leading-`#` string is
always hex-parsed, so a malformed hex value does NOT fall back to opaque
black (see the counterexample). -/
theorem parseColor_spec :
    (∀ s : Str, s ≠ [] → s ≠ "transparent".toList → s.head? ≠ some '#' →
      searchRgba s = none → parseColor (some s) = .ok opaqueBlack) ∧
    parseColor none = .ok transparentBlack ∧
    parseColor (some []) = .ok transparentBlack ∧
    parseColor (some "transparent".toList) = .ok transparentBlack ∧
    parseColor (some "rgba(255,0,0,0.5)".toList) = .ok ⟨some 1, some 0, some 0, some (mkRat 1 2)⟩ ∧
    parseColor (some "#ff0000".toList) = .ok ⟨some 1, some 0, some 0, some 1⟩ ∧
    parseColor (some "#f00".toList) = .ok ⟨some 1, some 0, some 0, some 1⟩ ∧
    parseColor (some "#f00c".toList) = .ok ⟨some 1, some 0, some 0, some (mkRat 204 255)⟩ ∧
    parseColor (some "#ff000080".toList) = .ok ⟨some 1, some 0, some 0, some (mkRat 128 255)⟩ := by
  refine ⟨?_, by decide, by decide, by decide, by decide, by decide, by decide, by decide, by decide⟩
  intro s h1 h2 h3 h4
  simp only [parseColor]
  rw [if_neg (by
    rintro (h | h)
    · exact h1 h
    · exact h2 h)]
  cases s with
  | nil => exact absurd rfl h1
  | cons c rest =>
    have hc : c ≠ '#' := by
      intro hcc
      subst hcc
      exact h3 rfl
    split
    · rename_i hx
      exact absurd (List.cons.inj hx).1 hc
    · rw [h4]
      rfl

/-- **C4** witness: the opaque-black clause at the plain keyword
`"blue"`. -/
theorem parseColor_spec_witness :
    parseColor (some "blue".toList) = .ok opaqueBlack :=
  parseColor_spec.1 "blue".toList (by decide) (by decide) (by decide) (by decide)

/-- **C4** counterexample: the malformed 5-digit hex `"#12345"` is not
mapped to opaque black — it is digit-parsed to an unrelated colour, so the
malformed-input fail-safe does not cover leading-`#` strings. -/
theorem parseColor_malformedHex_cex :
    parseColor (some "#12345".toList) =
      .ok ⟨some (mkRat 6 85), some (mkRat 52 255), some (mkRat 1 51), some 1⟩ ∧
    (JsColor.mk (some (mkRat 6 85)) (some (mkRat 52 255)) (some (mkRat 1 51)) (some 1)) ≠
      opaqueBlack := by
  decide

/-- **C9** counterexample: `rgb(999,0,0)` parses with r = 999/255 > 1, so
the returned components are not confined to the unit range. -/
theorem parseColor_unitRange_cex :
    parseColor (some "rgb(999, 0, 0)".toList) =
      .ok ⟨some (mkRat 333 85), some 0, some 0, some 1⟩ ∧
    ¬ ((mkRat 333 85 : ℚ) ≤ 1) := by
  constructor
  · decide
  · rw [Rat.mkRat_eq_div]
    norm_num

end Web2Figma

namespace Web2Figma

theorem hexDigitVal_lt (c : Char) (h : isHexDig c = true) : hexDigitVal c < 16 := by
  unfold isHexDig isDig at h
  unfold hexDigitVal isDig
  simp only [Bool.or_eq_true, Bool.and_eq_true, decide_eq_true_eq] at h
  rcases h with (h | h) | h <;> split <;> rename_i h2 <;>
    first
    | (simp only [Bool.and_eq_true, decide_eq_true_eq] at h2; omega)
    | (split <;> omega)

theorem hexValAux_lt (l : Str) (acc : Nat) (h : ∀ c ∈ l, isHexDig c = true) :
    hexValAux acc l < (acc + 1) * 16 ^ l.length := by
  induction l generalizing acc with
  | nil => simp [hexValAux]
  | cons c cs ih =>
    have hc := hexDigitVal_lt c (h c (List.mem_cons_self c cs))
    have := ih (16 * acc + hexDigitVal c) (fun x hx => h x (List.mem_cons_of_mem c hx))
    calc hexValAux acc (c :: cs) = hexValAux (16 * acc + hexDigitVal c) cs := rfl
      _ < (16 * acc + hexDigitVal c + 1) * 16 ^ cs.length := this
      _ ≤ (acc + 1) * 16 ^ (c :: cs).length := by
          simp only [List.length_cons, pow_succ]
          have h1 : 16 * acc + hexDigitVal c + 1 ≤ (acc + 1) * 16 := by omega
          calc (16 * acc + hexDigitVal c + 1) * 16 ^ cs.length
              ≤ ((acc + 1) * 16) * 16 ^ cs.length := Nat.mul_le_mul_right _ h1
            _ = (acc + 1) * (16 ^ cs.length * 16) := by ring

theorem hexVal_le (l : Str) (h : ∀ c ∈ l, isHexDig c = true) (hl : l.length ≤ 2) :
    hexVal l ≤ 255 := by
  have := hexValAux_lt l 0 h
  have h16 : (16:ℕ) ^ l.length ≤ 16 ^ 2 := Nat.pow_le_pow_right (by omega) hl
  simp only [hexVal]
  omega

theorem jsParseIntHex_bounded (s : Str) (q : ℚ) (hl : s.length ≤ 2)
    (h : jsParseIntHex s = some q) : ∃ n : ℕ, q = (n : ℚ) ∧ n ≤ 255 := by
  unfold jsParseIntHex at h
  dsimp only at h
  split at h
  · exact absurd h (by simp)
  · refine ⟨hexVal (s.takeWhile isHexDig), (Option.some.inj h).symm, ?_⟩
    refine hexVal_le _ (fun c hc => List.mem_takeWhile_imp hc) ?_
    exact le_trans (List.Sublist.length_le (List.takeWhile_sublist _)) hl

theorem chunks2_short (l : Str) (c : Str) (h : c ∈ chunks2 l) : c.length ≤ 2 := by
  induction l using chunks2.induct with
  | case1 => simp [chunks2] at h
  | case2 x => simp [chunks2] at h; simp [h]
  | case3 a b rest ih =>
    simp only [chunks2, List.mem_cons] at h
    rcases h with rfl | h
    · simp
    · exact ih h

theorem qdiv255_bounds (n : ℕ) (hn : n ≤ 255) : 0 ≤ qdiv (n : ℚ) 255 ∧ qdiv (n : ℚ) 255 ≤ 1 := by
  rw [qdiv_eq_div]
  constructor
  · positivity
  · rw [div_le_one (by norm_num)]
    exact_mod_cast hn

theorem jsParseFloatDD_nonneg (g : Str) (q : ℚ) (h : jsParseFloatDD g = some q) : 0 ≤ q := by
  unfold jsParseFloatDD at h
  dsimp only at h
  split at h
  · split at h
    · exact absurd h (by simp)
    · rw [qadd_eq_add, qdiv_eq_div] at h
      have := Option.some.inj h
      subst this
      positivity
  · split at h
    · exact absurd h (by simp)
    · have := Option.some.inj h
      subst this
      positivity

/-- Every defined component of `colorOfIm im` lies in [0,1] when every
defined entry of `im` is a natural number at most 255. -/
theorem colorOfIm_bounds (im : List JNum)
    (him : ∀ v ∈ im, ∀ q : ℚ, v = some q → ∃ n : ℕ, q = (n : ℚ) ∧ n ≤ 255) :
    ∀ q : ℚ, ((colorOfIm im).r = some q ∨ (colorOfIm im).g = some q ∨
      (colorOfIm im).b = some q ∨ (colorOfIm im).a = some q) → 0 ≤ q ∧ q ≤ 1 := by
  have hidx : ∀ i q, jdiv255 (jsIdx im i) = some q → 0 ≤ q ∧ q ≤ 1 := by
    intro i q h
    unfold jsIdx at h
    rcases hg : im.get? i with _ | v
    · rw [hg] at h; exact absurd h (by simp [jdiv255])
    · rw [hg] at h
      rcases v with _ | qv
      · exact absurd h (by simp [jdiv255])
      · simp only [jdiv255, Option.map_some] at h
        obtain ⟨n, rfl, hn⟩ := him (some qv) (List.get?_mem hg) qv rfl
        have := Option.some.inj h
        subst this
        exact qdiv255_bounds n hn
  intro q hq
  rcases hq with h | h | h | h
  · exact hidx 0 q h
  · exact hidx 1 q h
  · exact hidx 2 q h
  · simp only [colorOfIm] at h
    rcases hg : im.get? 3 with _ | v
    · rw [hg] at h
      simp only at h
      have := Option.some.inj h
      subst this
      norm_num
    · rw [hg] at h
      simp only at h
      rcases v with _ | qv
      · exact absurd h (by simp [jdiv255])
      · simp only [jdiv255, Option.map_some] at h
        obtain ⟨n, rfl, hn⟩ := him (some qv) (List.get?_mem hg) qv rfl
        have := Option.some.inj h
        subst this
        exact qdiv255_bounds n hn

end Web2Figma
namespace Web2Figma

/-- **C9**: whenever the rgba match exists and its numeric groups are
bounded (components ≤ 255, alpha ≤ 1 — `rgbaBoundedB`), every component
`parseColor` returns lies in `[0,1]`.  (Without that boundedness premise
the property is false, see the counterexample.) -/
theorem parseColor_unitRange :
    ∀ (s : Str) (c : JsColor), parseColor (some s) = .ok c → rgbaBoundedB s = true →
      ∀ q : ℚ, (c.r = some q ∨ c.g = some q ∨ c.b = some q ∨ c.a = some q) →
        0 ≤ q ∧ q ≤ 1 := by
  intro s c hok hb q hq
  simp only [parseColor] at hok
  split at hok
  · cases Except.ok.inj hok
    rcases hq with h | h | h | h <;> (cases Option.some.inj h; norm_num)
  · split at hok
    · rename_i hex hpat
      split at hok
      · cases Except.ok.inj hok
        refine colorOfIm_bounds _ ?_ q hq
        intro v hv qv hvq
        obtain ⟨a, _, rfl⟩ := List.mem_map.mp hv
        exact jsParseIntHex_bounded [a, a] qv (by simp) hvq
      · split at hok
        · exact absurd hok (by simp)
        · cases Except.ok.inj hok
          refine colorOfIm_bounds _ ?_ q hq
          intro v hv qv hvq
          obtain ⟨ch, hch, rfl⟩ := List.mem_map.mp hv
          exact jsParseIntHex_bounded ch qv (chunks2_short hex ch hch) hvq
    · unfold rgbaBoundedB at hb
      split at hok
      · cases Except.ok.inj hok
        rcases hq with h | h | h | h <;> (cases Option.some.inj h; norm_num)
      · rename_i m hm
        rw [hm] at hb
        dsimp only at hb
        simp only [Bool.and_eq_true, decide_eq_true_eq] at hb
        obtain ⟨⟨⟨h1, h2⟩, h3⟩, h4⟩ := hb
        cases Except.ok.inj hok
        rcases hq with h | h | h | h
        · cases Option.some.inj h; exact qdiv255_bounds _ h1
        · cases Option.some.inj h; exact qdiv255_bounds _ h2
        · cases Option.some.inj h; exact qdiv255_bounds _ h3
        · rcases hg4 : m.g4 with _ | g
          · rw [hg4] at h
            dsimp only at h
            cases Option.some.inj h
            norm_num
          · rw [hg4] at h
            dsimp only at h
            refine ⟨jsParseFloatDD_nonneg g q h, ?_⟩
            unfold alphaOKB at h4
            rw [hg4] at h4
            dsimp only at h4
            rw [h] at h4
            exact (qle_iff q 1).mp h4

end Web2Figma
namespace Web2Figma

theorem afterFirstOcc_strIncludes (pat : Str) :
    ∀ (s t : Str), afterFirstOcc pat s = some t → strIncludes pat s = true := by
  intro s
  induction s with
  | nil =>
    intro t h
    unfold afterFirstOcc at h
    split at h
    · simpa [strIncludes] using ‹pat.isEmpty = true›
    · exact absurd h (by simp)
  | cons c rest ih =>
    intro t h
    unfold afterFirstOcc at h
    split at h
    · rename_i hp
      simp [strIncludes, hp]
    · rename_i hp
      simp only [strIncludes, Bool.or_eq_true]
      exact Or.inr (ih t h)

theorem collectStops_positions (denom : Nat) :
    ∀ (ps : List Str) (count : Nat) (stops : List GradientStop),
      collectStops denom ps count = .ok stops →
      ∀ i st, stops.get? i = some st →
        st.position = qdiv ((count + i : ℕ) : ℚ) ((denom : ℕ) : ℚ) := by
  intro ps
  induction ps with
  | nil =>
    intro count stops h i st hst
    unfold collectStops at h
    cases Except.ok.inj h
    simp at hst
  | cons p ps' ih =>
    intro count stops h i st hst
    unfold collectStops at h
    split at h
    · exact ih count stops h i st hst
    · rename_i tok htok
      split at h
      · exact absurd h (by simp [Except.map])
      · rename_i c hc
        rcases hrest : collectStops denom ps' (count + 1) with e | rest2
        · rw [hrest] at h
          exact absurd h (by simp [Except.map])
        · rw [hrest] at h
          simp only [Except.map] at h
          cases Except.ok.inj h
          cases i with
          | zero =>
            cases Option.some.inj hst
            simp
          | succ i' =>
            have := ih (count + 1) rest2 hrest i' st (by simpa using hst)
            rw [this]
            congr 2
            omega

/-- **C8**: the gradient parser returns a non-empty result only for
strings containing `linear-gradient(`; a returned gradient has at least
two stops; and stop `i` receives position `i / (segments − 1)` where
`segments` counts ALL top-level comma-separated segments of the argument
list — including a leading angle/direction segment — so the positions are
evenly spaced but need not span `[0,1]`. -/
theorem parseGradients_spec :
    (∀ (s : Str) (gs : List GradientLinear), parseGradients (some s) = .ok gs → gs ≠ [] →
      strIncludes ("linear-gradient(".toList) s = true) ∧
    (∀ (s : Str) (gs : List GradientLinear), parseGradients (some s) = .ok gs →
      gs = [] ∨ ∃ g, gs = [g] ∧ 2 ≤ g.gradientStops.length) ∧
    (∀ (s inner : Str) (gs : List GradientLinear) (g : GradientLinear),
      linearGradientInner s = some inner → parseGradients (some s) = .ok gs → gs = [g] →
      ∀ i st, g.gradientStops.get? i = some st →
        st.position = qdiv ((i : ℕ) : ℚ) (((splitTopComma inner).length - 1 : ℕ) : ℚ)) := by
  refine ⟨?_, ?_, ?_⟩
  · intro s gs h hne
    simp only [parseGradients] at h
    split at h
    · cases Except.ok.inj h; exact absurd rfl hne
    · split at h
      · cases Except.ok.inj h; exact absurd rfl hne
      · rename_i inner hinner
        unfold linearGradientInner at hinner
        rcases hocc : afterFirstOcc ("linear-gradient(".toList) s with _ | t
        · rw [hocc] at hinner; exact absurd hinner (by simp)
        · exact afterFirstOcc_strIncludes _ s t hocc
  · intro s gs h
    simp only [parseGradients] at h
    split at h
    · cases Except.ok.inj h; exact Or.inl rfl
    · split at h
      · cases Except.ok.inj h; exact Or.inl rfl
      · rename_i inner hinner
        rcases hcoll : collectStops ((splitTopComma inner).length - 1) (splitTopComma inner) 0
          with e | stops
        · rw [hcoll] at h; exact absurd h (by simp [Except.map])
        · rw [hcoll] at h
          simp only [Except.map] at h
          cases Except.ok.inj h
          split
          · exact Or.inl rfl
          · rename_i hlen
            refine Or.inr ⟨_, rfl, ?_⟩
            simp only [GradientLinear.mk.injEq]
            omega
  · intro s inner gs g hinner h hgs i st hst
    simp only [parseGradients] at h
    split at h
    · cases Except.ok.inj h
      exact absurd hgs.symm (by simp)
    · split at h
      · cases Except.ok.inj h
        exact absurd hgs (by simp)
      · rename_i inner2 hinner2
        rw [hinner] at hinner2
        cases Option.some.inj hinner2
        rcases hcoll : collectStops ((splitTopComma inner).length - 1) (splitTopComma inner) 0
          with e | stops
        · rw [hcoll] at h; exact absurd h (by simp [Except.map])
        · rw [hcoll] at h
          simp only [Except.map] at h
          cases Except.ok.inj h
          split at hgs
          · exact absurd hgs (by simp)
          · cases List.cons.inj hgs |>.1
            have := collectStops_positions _ _ _ _ hcoll i st hst
            simpa using this

end Web2Figma
namespace Web2Figma

theorem firstLoadable_loadOk (loadOk : FontName → Bool) (fam : Str) :
    ∀ l f, firstLoadable loadOk fam l = some f → loadOk f = true := by
  intro l
  induction l with
  | nil => intro f h; exact absurd h (by simp [firstLoadable])
  | cons v vs ih =>
    intro f h
    unfold firstLoadable at h
    split at h
    · cases Option.some.inj h; assumption
    · exact ih f h

theorem firstLoadable_cons (loadOk : FontName → Bool) (fam v : Str) (vs : List Str) :
    firstLoadable loadOk fam (v :: vs) =
      if loadOk ⟨fam, v⟩ = true then some ⟨fam, v⟩ else firstLoadable loadOk fam vs := rfl

theorem firstLoadable_filter_unloadable (loadOk : FontName → Bool) (fam a : Str)
    (ha : loadOk ⟨fam, a⟩ = false) :
    ∀ l, firstLoadable loadOk fam (l.filter (fun x => !(x == a))) =
      firstLoadable loadOk fam l := by
  intro l
  induction l with
  | nil => rfl
  | cons x xs ih =>
    by_cases hx : x = a
    · have hfc : (x :: xs).filter (fun y => !(y == a)) = xs.filter (fun y => !(y == a)) := by
        simp [List.filter_cons, hx]
      rw [hfc, ih, firstLoadable_cons, hx, ha]
      simp
    · have hfc : (x :: xs).filter (fun y => !(y == a)) =
          x :: xs.filter (fun y => !(y == a)) := by
        simp [List.filter_cons, hx]
      rw [hfc, firstLoadable_cons, firstLoadable_cons, ih]

theorem jsSetDedupAux_cons (seen : List Str) (x : Str) (xs : List Str) :
    jsSetDedupAux seen (x :: xs) =
      if seen.contains x then jsSetDedupAux seen xs
      else x :: jsSetDedupAux (seen ++ [x]) xs := rfl

theorem firstLoadable_dedupAux (loadOk : FontName → Bool) (fam : Str) :
    ∀ (l seen : List Str),
      firstLoadable loadOk fam (jsSetDedupAux seen l) =
        firstLoadable loadOk fam (l.filter (fun x => !(seen.contains x))) := by
  intro l
  induction l with
  | nil => intro seen; rfl
  | cons x xs ih =>
    intro seen
    by_cases hx : seen.contains x
    · have hmem : x ∈ seen := List.elem_iff.mp hx
      rw [jsSetDedupAux_cons, if_pos hx, ih seen]
      congr 1
      simp [List.filter_cons, hmem]
    · have hmem : x ∉ seen := fun hc => hx (List.elem_iff.mpr hc)
      rw [jsSetDedupAux_cons, if_neg (by simpa using hmem)]
      have hfc : (x :: xs).filter (fun y => !(seen.contains y)) =
          x :: xs.filter (fun y => !(seen.contains y)) := by
        simp [List.filter_cons, hmem]
      rw [hfc, firstLoadable_cons, firstLoadable_cons, ih (seen ++ [x])]
      split
      · rfl
      · rename_i hload
        have hpred : ∀ y : Str, ((seen ++ [x]).contains y) = (seen.contains y || y == x) := by
          intro y
          simp only [List.contains_eq_any_beq, List.any_append, List.any_cons, List.any_nil,
            Bool.or_false]
        have hff : xs.filter (fun y => !((seen ++ [x]).contains y)) =
            (xs.filter (fun y => !(seen.contains y))).filter (fun y => !(y == x)) := by
          rw [List.filter_filter]
          apply List.filter_congr
          intro y _
          rw [hpred y]
          simp [Bool.not_or, Bool.and_comm]
        rw [hff]
        exact firstLoadable_filter_unloadable loadOk fam x (by simpa using hload) _

/-- **C6**: `safeLoadFont` tries the deduplicated candidate list in the
spec order (exact style, despaced, camel-split, bold-ish extras, Regular,
default family at Regular), then Inter Regular, and otherwise returns the
fresh-node default font: it always returns a usable font or that default,
never an error. -/
theorem safeLoadFont_spec :
    (∀ (loadOk : FontName → Bool) (dflt : FontName) (fam style : Str),
      safeLoadFont loadOk dflt ⟨fam, style⟩ =
        match firstLoadable loadOk fam (specFallbackStyles style) with
        | some f => f
        | none => if loadOk interRegular then interRegular else dflt) ∧
    (∀ (loadOk : FontName → Bool) (dflt fn : FontName),
      loadOk (safeLoadFont loadOk dflt fn) = true ∨ safeLoadFont loadOk dflt fn = dflt) := by
  constructor
  · intro loadOk dflt fam style
    unfold safeLoadFont jsSetDedup
    rw [firstLoadable_dedupAux]
    have hfilt : (safeLoadFontVariations style).filter
        (fun x => !(([] : List Str).contains x)) = safeLoadFontVariations style := by
      simp [List.contains]
    rw [hfilt]
    rfl
  · intro loadOk dflt fn
    unfold safeLoadFont
    split
    · rename_i f hf
      exact Or.inl (firstLoadable_loadOk loadOk fn.family _ f hf)
    · split
      · exact Or.inl (by assumption)
      · exact Or.inr rfl

end Web2Figma

namespace Web2Figma

theorem insertByWeight_perm (c : LayerNode) :
    ∀ l : List LayerNode, List.Perm (insertByWeight c l) (c :: l) := by
  intro l
  induction l with
  | nil => rfl
  | cons d ds ih =>
    unfold insertByWeight
    split
    · rfl
    · exact ((ih.cons d).trans (List.Perm.swap c d ds))

theorem sortByWeight_perm (l : List LayerNode) : List.Perm (sortByWeight l) l := by
  induction l with
  | nil => rfl
  | cons c cs ih =>
    unfold sortByWeight at ih ⊢
    exact (insertByWeight_perm c _).trans (ih.cons c)


/-- Beyond the depth ceiling the extractor returns no node. -/
theorem captureNode_depth_none (skip : DomNode → Bool) (d : Nat) (n : DomNode) (h : 50 < d) :
    captureNode skip d n = none := by
  rw [captureNode.eq_def]; rw [if_pos h]

theorem captureChildren_nil (skip : DomNode → Bool) (d : Nat) (count : Nat) :
    captureChildren skip d [] count = [] := rfl

theorem captureChildren_cons (skip : DomNode → Bool) (d : Nat) (c : DomNode)
    (cs : List DomNode) (count : Nat) :
    captureChildren skip d (c :: cs) count =
      if count > 500 then []
      else match captureNode skip d c with
        | some l => l :: captureChildren skip d cs (count + 1)
        | none => captureChildren skip d cs count := rfl

/-- The child loop appends at most `501 - count` further children. -/
theorem captureChildren_length (skip : DomNode → Bool) (d : Nat) :
    ∀ (cs : List DomNode) (count : Nat),
      (captureChildren skip d cs count).length ≤ 501 - count := by
  intro cs
  induction cs with
  | nil => intro count; rw [captureChildren_nil]; simp
  | cons c cs ih =>
    intro count
    rw [captureChildren_cons]
    by_cases hc : count > 500
    · rw [if_pos hc]; simp
    · rw [if_neg hc]
      cases captureNode skip d c with
      | some l =>
        dsimp only
        have := ih (count + 1)
        simp only [List.length_cons]
        omega
      | none => exact ih count

theorem heightLs_le (m : Nat) :
    ∀ (L : List LayerNode), (∀ c ∈ L, heightL c ≤ m) → heightLs L ≤ m := by
  intro L
  induction L with
  | nil => intro _; rw [heightLs]; exact Nat.zero_le m
  | cons c cs ih =>
    intro h
    rw [heightLs]
    exact max_le (h c (by simp)) (ih fun x hx => h x (by simp [hx]))

theorem widthOKs_iff :
    ∀ (L : List LayerNode), widthOKs L = true ↔ ∀ c ∈ L, widthOK c = true := by
  intro L
  induction L with
  | nil => simp [widthOKs]
  | cons c cs ih => rw [widthOKs]; simp [ih]

theorem heightL_strip (c : LayerNode) : heightL (stripSortKeys c) = heightL c := by
  cases c with
  | mk k ch r z p f cs => rw [stripSortKeys, heightL, heightL]

theorem widthOK_strip (c : LayerNode) : widthOK (stripSortKeys c) = widthOK c := by
  cases c with
  | mk k ch r z p f cs => rw [stripSortKeys, widthOK, widthOK]

theorem list_ite_len_le_one (P : Prop) [Decidable P] (a b : List LayerNode)
    (ha : a.length ≤ 1) (hb : b.length ≤ 1) : (if P then a else b).length ≤ 1 := by
  by_cases h : P
  · rwa [if_pos h]
  · rwa [if_neg h]

theorem mem_ite_list (P : Prop) [Decidable P] (a b : List LayerNode) (c : LayerNode)
    (hc : c ∈ (if P then a else b)) : c ∈ a ∨ c ∈ b := by
  by_cases h : P
  · rw [if_pos h] at hc; exact Or.inl hc
  · rw [if_neg h] at hc; exact Or.inr hc

theorem formControlChildren_length (e : ElemData) :
    (formControlChildren e).length ≤ 1 := by
  unfold formControlChildren
  apply list_ite_len_le_one
  · apply list_ite_len_le_one
    · simp
    · dsimp only
      apply list_ite_len_le_one <;> simp
  · simp

theorem formControlChildren_leaf (e : ElemData) :
    ∀ c ∈ formControlChildren e, heightL c = 1 ∧ widthOK c = true := by
  intro c hc
  unfold formControlChildren at hc
  rcases mem_ite_list _ _ _ _ hc with hc1 | hc1
  · rcases mem_ite_list _ _ _ _ hc1 with hc2 | hc2
    · simp only [List.mem_singleton] at hc2
      subst hc2
      exact ⟨by simp [heightL, heightLs], by simp [widthOK, widthOKs]⟩
    · dsimp only at hc2
      rcases mem_ite_list _ _ _ _ hc2 with hc3 | hc3
      · simp only [List.mem_singleton] at hc3
        subst hc3
        exact ⟨by simp [heightL, heightLs], by simp [widthOK, widthOKs]⟩
      · exact absurd hc3 (by simp)
  · exact absurd hc1 (by simp)

theorem formControlChildren_iframe (e : ElemData) (he : e.tag = "IFRAME".toList) :
    formControlChildren e = [] := by
  unfold formControlChildren
  rw [if_neg]
  rintro (h | h | h) <;> rw [he] at h <;> exact absurd h (by decide)

/-- A layer whose children all satisfy the bounds satisfies them. -/
theorem mk_bounds (k : LKind) (t : Str) (r : List StyleRange) (z : Option ZVal)
    (p f : Option Str) (CH : List LayerNode) (d : Nat) (hd : d ≤ 50)
    (hlen : CH.length ≤ 502)
    (hm : ∀ c ∈ CH, heightL c ≤ 51 - d ∧ widthOK c = true) :
    heightL (.mk k t r z p f CH) + d ≤ 52 ∧ widthOK (.mk k t r z p f CH) = true := by
  constructor
  · rw [heightL]
    have := heightLs_le (51 - d) CH (fun c hc => (hm c hc).1)
    omega
  · rw [widthOK, Bool.and_eq_true]
    exact ⟨decide_eq_true hlen, (widthOKs_iff CH).mpr (fun c hc => (hm c hc).2)⟩

end Web2Figma
namespace Web2Figma

/-- The synthetic rich-text leaf child keeps the bounds. -/
theorem rich_leaf_bounds (k : LKind) (z : ZVal) (p f : Str) (tx : Str)
    (rs : List StyleRange) (d : Nat) (hd' : d ≤ 50) :
    heightL (.mk k [] [] (some z) (some p) (some f)
        [.mk .TEXT tx rs none none none []]) + d ≤ 52 ∧
      widthOK (.mk k [] [] (some z) (some p) (some f)
        [.mk .TEXT tx rs none none none []]) = true := by
  apply mk_bounds _ _ _ _ _ _ _ d hd' (by simp)
  intro c hc
  simp only [List.mem_singleton] at hc
  subst hc
  constructor
  · rw [heightL, heightLs]
    omega
  · simp [widthOK, widthOKs]

/-- Bounds for the ordinary element branch, with the recursive facts about
the iframe body and the child loop supplied as hypotheses. -/
theorem main_branch_bounds (skip : DomNode → Bool) (d : Nat) (e : ElemData)
    (ifb : Option DomNode) (cs : List DomNode) (k : LKind) (z : ZVal) (p f : Str)
    (hd' : d ≤ 50)
    (hrec1 : ∀ body c, ifb = some body → captureNode skip (d + 1) body = some c →
      heightL c + (d + 1) ≤ 52 ∧ widthOK c = true)
    (hrec2 : ∀ c ∈ captureChildren skip (d + 1) cs 0,
      heightL c + (d + 1) ≤ 52 ∧ widthOK c = true) :
    heightL (.mk k [] [] (some z) (some p) (some f)
        ((sortByWeight
          ((if e.tag = "IFRAME".toList then
              match ifb with
              | some body => (captureNode skip (d + 1) body).toList
              | none => []
            else []) ++ formControlChildren e ++ captureChildren skip (d + 1) cs 0)).map
          stripSortKeys)) + d ≤ 52 ∧
      widthOK (.mk k [] [] (some z) (some p) (some f)
        ((sortByWeight
          ((if e.tag = "IFRAME".toList then
              match ifb with
              | some body => (captureNode skip (d + 1) body).toList
              | none => []
            else []) ++ formControlChildren e ++ captureChildren skip (d + 1) cs 0)).map
          stripSortKeys)) = true := by
  have hmem : ∀ c ∈
      ((if e.tag = "IFRAME".toList then
          match ifb with
          | some body => (captureNode skip (d + 1) body).toList
          | none => []
        else []) ++ formControlChildren e ++ captureChildren skip (d + 1) cs 0),
      heightL c + (d + 1) ≤ 52 ∧ widthOK c = true := by
    intro c hc
    rw [List.mem_append] at hc
    rcases hc with hc | hc
    · rw [List.mem_append] at hc
      rcases hc with hc | hc
      · rcases mem_ite_list _ _ _ _ hc with hci | hci
        · cases ifb with
          | some body =>
            dsimp only at hci
            have hcb : captureNode skip (d + 1) body = some c := by
              cases hcap : captureNode skip (d + 1) body with
              | some x =>
                rw [hcap] at hci
                simp only [Option.toList_some, List.mem_singleton] at hci
                rw [hci]
              | none =>
                rw [hcap] at hci
                exact absurd hci (by simp)
            exact hrec1 body c rfl hcb
          | none =>
            dsimp only at hci
            exact absurd hci (by simp)
        · exact absurd hci (by simp)
      · have := formControlChildren_leaf e c hc
        exact ⟨by omega, this.2⟩
    · exact hrec2 c hc
  apply mk_bounds _ _ _ _ _ _ _ d hd'
  · have hperm := (sortByWeight_perm
      ((if e.tag = "IFRAME".toList then
          match ifb with
          | some body => (captureNode skip (d + 1) body).toList
          | none => []
        else []) ++ formControlChildren e ++ captureChildren skip (d + 1) cs 0)).length_eq
    rw [List.length_map, hperm]
    simp only [List.length_append]
    have h3 := captureChildren_length skip (d + 1) cs 0
    have h12 : (if e.tag = "IFRAME".toList then
          match ifb with
          | some body => (captureNode skip (d + 1) body).toList
          | none => []
        else []).length + (formControlChildren e).length ≤ 1 := by
      by_cases ht : e.tag = "IFRAME".toList
      · rw [if_pos ht, formControlChildren_iframe e ht]
        have : (match ifb with
            | some body => (captureNode skip (d + 1) body).toList
            | none => ([] : List LayerNode)).length ≤ 1 := by
          cases ifb with
          | some body =>
            dsimp only
            cases captureNode skip (d + 1) body <;> simp
          | none => simp
        simpa using this
      · rw [if_neg ht]
        have := formControlChildren_length e
        simpa using this
    omega
  · intro m hmm
    rcases List.mem_map.mp hmm with ⟨c, hcs, rfl⟩
    have hc' := ((sortByWeight_perm _).mem_iff).mp hcs
    have := hmem c hc'
    rw [heightL_strip, widthOK_strip]
    exact ⟨by omega, this.2⟩

end Web2Figma
namespace Web2Figma

set_option maxHeartbeats 1600000 in
mutual

theorem captureNode_bounds (skip : DomNode → Bool) (d : Nat) (n : DomNode) :
    ∀ l, captureNode skip d n = some l → heightL l + d ≤ 52 ∧ widthOK l = true := by
  intro l h
  by_cases hd : d > 50
  · rw [captureNode_depth_none skip d n hd] at h
    exact Option.noConfusion h
  · have hd' : d ≤ 50 := by omega
    cases n with
    | text t =>
      rw [captureNode.eq_def] at h
      rw [if_neg hd] at h
      by_cases hs : skip (.text t) = true
      · rw [if_pos hs] at h; exact Option.noConfusion h
      · rw [if_neg hs] at h
        split at h
        · dsimp only at h
          split at h
          · exact Option.noConfusion h
          split at h
          · exact Option.noConfusion h
          split at h
          · exact Option.noConfusion h
          cases h
          exact mk_bounds _ _ _ _ _ _ [] d hd' (by simp) (by simp)
        · rename_i heq
          exact absurd heq (by simp)
    | element e ifb cs =>
      rw [captureNode.eq_def] at h
      rw [if_neg hd] at h
      by_cases hs : skip (.element e ifb cs) = true
      · rw [if_pos hs] at h; exact Option.noConfusion h
      · rw [if_neg hs] at h
        split at h
        · rename_i heq
          exact absurd heq (by simp)
        · rename_i e' ifb' cs' heq
          injection heq with h1 h2 h3
          subst h1; subst h2; subst h3
          split at h
          · exact Option.noConfusion h
          split at h
          · exact Option.noConfusion h
          split at h
          · exact Option.noConfusion h
          split at h
          · exact Option.noConfusion h
          split at h
          · exact Option.noConfusion h
          split at h
          · -- math leaf
            cases h
            exact mk_bounds _ _ _ _ _ _ [] d hd' (by simp) (by simp)
          · dsimp only at h
            by_cases himg : e.tag = "IMG".toList
            · rw [if_pos himg] at h
              rw [if_neg (by decide : ¬ (LKind.IMAGE = LKind.SVG))] at h
              split at h
              · cases h
                exact rich_leaf_bounds _ _ _ _ _ _ d hd'
              · cases h
                exact main_branch_bounds skip d e ifb cs _ _ _ _ hd'
                  (fun body c hb hc => by
                    subst hb
                    exact captureNode_bounds skip (d + 1) body c hc)
                  (fun c hc => captureChildren_bounds skip (d + 1) cs 0 c hc)
            · rw [if_neg himg] at h
              by_cases hsvg : e.tag = "svg".toList ∨ e.tag = "SVG".toList
              · rw [if_pos hsvg] at h
                rw [if_pos (rfl : LKind.SVG = LKind.SVG)] at h
                split at h
                · cases h
                  exact rich_leaf_bounds _ _ _ _ _ _ d hd'
                · cases h
                  exact mk_bounds _ _ _ _ _ _ [] d hd' (by simp) (by simp)
              · rw [if_neg hsvg] at h
                rw [if_neg (by decide : ¬ (LKind.FRAME = LKind.SVG))] at h
                split at h
                · cases h
                  exact rich_leaf_bounds _ _ _ _ _ _ d hd'
                · cases h
                  exact main_branch_bounds skip d e ifb cs _ _ _ _ hd'
                    (fun body c hb hc => by
                      subst hb
                      exact captureNode_bounds skip (d + 1) body c hc)
                    (fun c hc => captureChildren_bounds skip (d + 1) cs 0 c hc)

theorem captureChildren_bounds (skip : DomNode → Bool) (d : Nat) (cs : List DomNode) :
    ∀ count l, l ∈ captureChildren skip d cs count → heightL l + d ≤ 52 ∧ widthOK l = true := by
  intro count l hl
  cases cs with
  | nil =>
    rw [captureChildren_nil] at hl
    exact absurd hl (by simp)
  | cons c cs' =>
    rw [captureChildren_cons] at hl
    by_cases hc : count > 500
    · rw [if_pos hc] at hl; exact absurd hl (by simp)
    · rw [if_neg hc] at hl
      cases hcap : captureNode skip d c with
      | some a =>
        rw [hcap] at hl
        dsimp only at hl
        rcases List.mem_cons.mp hl with rfl | hl'
        · exact captureNode_bounds skip d c l hcap
        · exact captureChildren_bounds skip d cs' (count + 1) l hl'
      | none =>
        rw [hcap] at hl
        dsimp only at hl
        exact captureChildren_bounds skip d cs' count l hl

end

end Web2Figma
namespace Web2Figma

/-- **C5**: the extractor is depth- and width-bounded: recursion beyond the
fixed depth ceiling (50) returns no node; the child loop captures at most
501 children per parent; and every produced tree satisfies the global
height bound (at most 52 levels from depth `d = 0`, the ceiling plus the
synthetic leaf layers) and the per-node child-count bound (at most 502,
one possible synthetic iframe/form child plus the capped loop). -/
theorem extractorBounds_spec :
    (∀ (skip : DomNode → Bool) (d : Nat) (n : DomNode), 50 < d → captureNode skip d n = none) ∧
    (∀ (skip : DomNode → Bool) (d : Nat) (cs : List DomNode),
      (captureChildren skip d cs 0).length ≤ 501) ∧
    (∀ (skip : DomNode → Bool) (d : Nat) (n : DomNode) (l : LayerNode),
      captureNode skip d n = some l → heightL l + d ≤ 52 ∧ widthOK l = true) := by
  refine ⟨captureNode_depth_none, ?_, ?_⟩
  · intro skip d cs
    simpa using captureChildren_length skip d cs 0
  · intro skip d n l h
    exact captureNode_bounds skip d n l h

/-- **C5** witness: the depth clause at depth 51 on the concrete example
page, and the bounds clause on a concretely captured text node. -/
theorem extractorBounds_spec_witness :
    captureNode (fun _ => false) 51 exCapture = none ∧
    (heightL (.mk .TEXT "Hi".toList [] (some .auto) (some "static".toList)
        (some "none".toList) []) + 0 ≤ 52 ∧
      widthOK (.mk .TEXT "Hi".toList [] (some .auto) (some "static".toList)
        (some "none".toList) []) = true) :=
  ⟨extractorBounds_spec.1 (fun _ => false) 51 exCapture (by decide),
   extractorBounds_spec.2.2 (fun _ => false) 0 (.text ⟨"Hi".toList, false, false⟩) _ rfl⟩

end Web2Figma
namespace Web2Figma

theorem createChildren_eq_map (cs : List IRData) (gx gy : ℚ) :
    createChildren cs gx gy = cs.map (fun c => createLayer c gx gy) := by
  induction cs with
  | nil => rfl
  | cons c cs ih =>
    rw [show createChildren (c :: cs) gx gy
      = createLayer c gx gy :: createChildren cs gx gy from rfl, List.map_cons, ih]

/-- **C3**: the synthesizer positions every created layer at the IR node's
absolute capture-time coordinates minus the parent's absolute capture-time
coordinates, and creates the children against this node's own capture-time
coordinates (`d.x`, `d.y`) — not against the already-adjusted native
position; concretely, a child captured at (120,70) under a parent captured
at (100,50) lands at relative (20,20). -/
theorem relativePosition_spec :
    (∀ (d : IRProps) (cs : List IRData) (px py : ℚ),
      (createLayer (.mk d cs) px py).props.x = d.x - px ∧
      (createLayer (.mk d cs) px py).props.y = d.y - py ∧
      (createLayer (.mk d cs) px py).children
        = (synthStrokesArcs d).2 ++ cs.map (fun c => createLayer c d.x d.y)) ∧
    (createLayer parentAt10050 0 0).children.map (fun c => (c.props.x, c.props.y))
      = [(20, 20)] := by
  constructor
  · intro d cs px py
    rw [createLayer.eq_def]
    dsimp only [SynthNode.props, SynthNode.children]
    exact ⟨qsub_eq_sub d.x px, qsub_eq_sub d.y py, by rw [createChildren_eq_map]⟩
  · decide

end Web2Figma
namespace Web2Figma

/-- **C7**: for a near-circular frame (width within 2 of height, corner
radius at least width/2 − 2) with non-uniform per-side stroke weights, the
synthesizer clears the frame's stroke list and prepends one arc child per
side of positive weight; each arc is a full-size ellipse filled with the
stroke colour, stroke-free, spanning a 90° sector, with inner-radius ratio
`max 0 ((radius − strokeWidth) / radius)` (the ratio is clamped at 0, not
the bare `(radius − strokeWidth) / radius`); the spec's example (top=4,
right=2, bottom=0, left=1) yields exactly 3 arcs. -/
theorem circleArcs_spec :
    (∀ (d : IRProps) (s0 : IRStroke) (ss : List IRStroke) (cs : List IRData) (px py : ℚ),
      d.strokes = some (s0 :: ss) → isCircleData d = true → hasUnequalBorders d = true →
      (createLayer (.mk d cs) px py).props.strokes = some [] ∧
      (createLayer (.mk d cs) px py).children =
        ((sectorsOf d).filterMap fun s =>
          if qlt 0 s.1 then some (arcFor d s0.color
            (match s0.opacity with | some v => v | none => 1) s.1 s.2.1 s.2.2) else none)
        ++ cs.map (fun c => createLayer c d.x d.y)) ∧
    (∀ (d : IRProps) (c : RGB) (o w f t : ℚ),
      (arcFor d c o w f t).props.fills = some [.solid c o] ∧
      (arcFor d c o w f t).props.strokes = some [] ∧
      (arcFor d c o w f t).props.arcData =
        some ⟨f, t, max 0 ((d.width / 2 - w) / (d.width / 2))⟩) ∧
    (∀ d : IRProps, (sectorsOf d).map (fun s => s.2.2 - s.2.1) = [90, 90, 90, 90]) ∧
    ((createLayer spinnerIR 0 0).children.length = 3 ∧
      (createLayer spinnerIR 0 0).props.strokes = some []) := by
  refine ⟨?_, ?_, ?_, by decide, by decide⟩
  · intro d s0 ss cs px py hstr hcirc huneq
    have hcond : (isCircleData d && hasUnequalBorders d) = true := by
      simp [hcirc, huneq]
    rw [createLayer.eq_def]
    dsimp only [SynthNode.props, SynthNode.children]
    constructor
    · show (synthStrokesArcs d).1 = some []
      unfold synthStrokesArcs
      rw [hstr]
      dsimp only
      rw [if_pos hcond]
    · show (synthStrokesArcs d).2 ++ createChildren cs d.x d.y = _
      rw [createChildren_eq_map]
      unfold synthStrokesArcs
      rw [hstr]
      dsimp only
      rw [if_pos hcond]
  · intro d c o w f t
    refine ⟨rfl, rfl, ?_⟩
    have harc : (arcFor d c o w f t).props.arcData =
        some ⟨f, t, qmax 0 (qdiv (qsub (qdiv d.width 2) w) (qdiv d.width 2))⟩ := rfl
    rw [harc]
    simp only [qmax_eq_max, qdiv_eq_div, qsub_eq_sub]
  · intro d
    simp only [sectorsOf, List.map_cons, List.map_nil, qint_eq]
    norm_num

end Web2Figma
namespace Web2Figma

/-- **C7** witness: the spec's spinner example, with the three arcs laid
out by the theorem's first clause. -/
theorem circleArcs_spec_witness :
    (createLayer spinnerIR 0 0).props.strokes = some [] ∧
    (createLayer spinnerIR 0 0).children =
      ((sectorsOf spinnerIR.props).filterMap fun s =>
        if qlt 0 s.1 then some (arcFor spinnerIR.props redRGB 1 s.1 s.2.1 s.2.2) else none)
      ++ ([] : List IRData).map (fun c => createLayer c spinnerIR.props.x spinnerIR.props.y) :=
  circleArcs_spec.1 spinnerIR.props ⟨redRGB, some 1⟩ [] [] 0 0 rfl (by decide) (by decide)

/-- **C7** counterexample to the unclamped ratio: a 10×10 circle whose top
stroke weight 20 exceeds the radius 5 gets inner-radius 0, not
`(radius − strokeWidth) / radius = −3`. -/
theorem circleArcs_ratio_cex :
    ((createLayer clampIR 0 0).children.map (fun a => a.props.arcData))
      = [some ⟨qint (-135), qint (-45), 0⟩, some ⟨qint (-45), qint 45, qdiv (qsub 5 1) 5⟩] ∧
    (0 : ℚ) ≠ (5 - 20) / 5 := by
  constructor
  · decide
  · norm_num

end Web2Figma
namespace Web2Figma

/-- **C10**: a FRAME-variant IR node whose fills list is absent or empty
gets its created frame's fill list explicitly set to empty, so no default
background fill remains. -/
theorem frameFills_spec :
    ∀ (d : IRProps) (cs : List IRData) (px py : ℚ),
      d.kind = .FRAME → (d.fills = none ∨ d.fills = some []) →
      (createLayer (.mk d cs) px py).props.fills = some [] := by
  intro d cs px py hk hf
  rw [createLayer.eq_def]
  dsimp only [SynthNode.props]
  rcases hf with hf | hf
  · rw [hf]
    dsimp only
    rw [if_pos hk]
  · rw [hf]
    dsimp only
    rw [if_neg (by simp), if_pos hk]

/-- **C10** witness: the (100,50) parent frame carries no captured fills
and comes out with an explicitly empty fill list. -/
theorem frameFills_spec_witness :
    (createLayer parentAt10050 0 0).props.fills = some [] :=
  frameFills_spec (baseIR .FRAME 100 50 200 200) [childAt12070] 0 0 rfl (Or.inl rfl)

end Web2Figma

namespace Web2Figma

theorem insertByWeight_sorted (c : LayerNode) :
    ∀ l : List LayerNode, l.Pairwise (fun a b => getWeight a ≤ getWeight b) →
      (insertByWeight c l).Pairwise (fun a b => getWeight a ≤ getWeight b) := by
  intro l
  induction l with
  | nil => intro _; simp [insertByWeight]
  | cons d ds ih =>
    intro h
    rw [List.pairwise_cons] at h
    unfold insertByWeight
    split
    · rename_i hle
      rw [List.pairwise_cons]
      refine ⟨?_, List.pairwise_cons.mpr h⟩
      intro b hb
      rcases List.mem_cons.mp hb with rfl | hb
      · exact hle
      · exact le_trans hle (h.1 b hb)
    · rename_i hgt
      rw [List.pairwise_cons]
      refine ⟨?_, ih h.2⟩
      intro b hb
      have hb' := (insertByWeight_perm c ds).mem_iff.mp hb
      rcases List.mem_cons.mp hb' with rfl | hb'
      · exact le_of_lt (lt_of_not_ge hgt)
      · exact h.1 b hb'

theorem sortByWeight_sorted (l : List LayerNode) :
    (sortByWeight l).Pairwise (fun a b => getWeight a ≤ getWeight b) := by
  induction l with
  | nil => simp [sortByWeight]
  | cons c cs ih =>
    unfold sortByWeight at ih ⊢
    exact insertByWeight_sorted c _ ih

theorem filter_insertByWeight (c : LayerNode) (k : ℤ) :
    ∀ l : List LayerNode,
      (insertByWeight c l).filter (fun a => decide (getWeight a = k)) =
        if getWeight c = k then c :: l.filter (fun a => decide (getWeight a = k))
        else l.filter (fun a => decide (getWeight a = k)) := by
  intro l
  induction l with
  | nil =>
    by_cases hk : getWeight c = k <;> simp [insertByWeight, List.filter_cons, hk]
  | cons d ds ih =>
    unfold insertByWeight
    split
    · rename_i hle
      by_cases hk : getWeight c = k
      · simp [List.filter_cons, hk]
      · simp [List.filter_cons, hk]
    · rename_i hgt
      by_cases hk : getWeight c = k
      · have hdk : getWeight d ≠ k := by
          intro hdk
          exact hgt (by omega)
        simp only [List.filter_cons, hdk, decide_eq_true_eq, if_neg (by simpa using hdk)]
        rw [ih]
        simp [hk]
      · simp only [List.filter_cons]
        rw [ih]
        simp only [hk, if_neg (by simpa using hk)]
        rfl

theorem sortByWeight_filter (l : List LayerNode) (k : ℤ) :
    (sortByWeight l).filter (fun a => decide (getWeight a = k)) =
      l.filter (fun a => decide (getWeight a = k)) := by
  induction l with
  | nil => rfl
  | cons c cs ih =>
    unfold sortByWeight at ih ⊢
    rw [show List.foldr insertByWeight [] (c :: cs) =
        insertByWeight c (List.foldr insertByWeight [] cs) from rfl]
    rw [filter_insertByWeight, ih]
    by_cases hk : getWeight c = k
    · simp [List.filter_cons, hk]
    · simp [List.filter_cons, hk]

end Web2Figma
namespace Web2Figma

/-- **C2**: the stacking sorter weights children exactly as claimed (text
5; positioned: 1 / 6+z / 6 by z-index sign; floated 4; flow 3), sorts
ascending by weight, stably (the unique weight-sorted permutation whose
equal-weight runs keep document order), and strips the sort-key fields
afterwards. -/
theorem stackingSort_spec :
    (∀ c : LayerNode, c.kind = .TEXT → getWeight c = 5) ∧
    (∀ c : LayerNode, c.kind ≠ .TEXT →
      jsStrDefault c.posKey "static".toList ≠ "static".toList →
      zIndexValOf c < 0 → getWeight c = 1) ∧
    (∀ c : LayerNode, c.kind ≠ .TEXT →
      jsStrDefault c.posKey "static".toList ≠ "static".toList →
      0 < zIndexValOf c → getWeight c = 6 + zIndexValOf c) ∧
    (∀ c : LayerNode, c.kind ≠ .TEXT →
      jsStrDefault c.posKey "static".toList ≠ "static".toList →
      zIndexValOf c = 0 → getWeight c = 6) ∧
    (∀ c : LayerNode, c.kind ≠ .TEXT →
      jsStrDefault c.posKey "static".toList = "static".toList →
      jsStrDefault c.floatKey "none".toList ≠ "none".toList → getWeight c = 4) ∧
    (∀ c : LayerNode, c.kind ≠ .TEXT →
      jsStrDefault c.posKey "static".toList = "static".toList →
      jsStrDefault c.floatKey "none".toList = "none".toList → getWeight c = 3) ∧
    (∀ l : List LayerNode, List.Perm (sortByWeight l) l) ∧
    (∀ l : List LayerNode,
      (sortByWeight l).Pairwise (fun a b => getWeight a ≤ getWeight b)) ∧
    (∀ (l : List LayerNode) (k : ℤ),
      (sortByWeight l).filter (fun a => decide (getWeight a = k)) =
        l.filter (fun a => decide (getWeight a = k))) ∧
    (∀ (l : List LayerNode) (c : LayerNode), c ∈ (sortByWeight l).map stripSortKeys →
      c.zKey = none ∧ c.posKey = none ∧ c.floatKey = none) := by
  refine ⟨?_, ?_, ?_, ?_, ?_, ?_, sortByWeight_perm, sortByWeight_sorted, sortByWeight_filter, ?_⟩
  · intro c h
    simp [getWeight, h]
  · intro c h hp hz
    simp only [getWeight, if_neg h, if_pos hp, if_pos hz]
  · intro c h hp hz
    simp only [getWeight, if_neg h, if_pos hp, if_neg (by omega : ¬ zIndexValOf c < 0),
      if_pos hz]
  · intro c h hp hz
    simp only [getWeight, if_neg h, if_pos hp, if_neg (by omega : ¬ zIndexValOf c < 0),
      if_neg (by omega : ¬ zIndexValOf c > 0)]
  · intro c h hp hf
    simp only [getWeight, if_neg h, if_neg (show ¬ jsStrDefault c.posKey "static".toList ≠
      "static".toList from fun hc => hc hp), if_pos hf]
  · intro c h hp hf
    simp only [getWeight, if_neg h, if_neg (show ¬ jsStrDefault c.posKey "static".toList ≠
      "static".toList from fun hc => hc hp),
      if_neg (show ¬ jsStrDefault c.floatKey "none".toList ≠ "none".toList from
        fun hc => hc hf)]
  · intro l c hc
    obtain ⟨d, _, rfl⟩ := List.mem_map.mp hc
    cases d with
    | mk k ch r z p f cs => exact ⟨rfl, rfl, rfl⟩

end Web2Figma
namespace Web2Figma
/-- **C2** witness: a positioned frame with z-index 3 weighs 9, and a
concrete three-frame sort is stable and ascending. -/
theorem stackingSort_spec_witness :
    getWeight (frameZ (.num 3) "absolute".toList) = 9 ∧
    (sortByWeight [frameZ (.num 3) "absolute".toList, frameZ .auto "static".toList,
        frameZ (.num (-1)) "absolute".toList]).map LayerNode.zKey =
      [some (.num (-1)), some .auto, some (.num 3)] := by
  constructor
  · have h := stackingSort_spec.2.2.1 (frameZ (.num 3) "absolute".toList)
      (by decide) (by decide) (by decide)
    rw [h]
    decide
  · decide
end Web2Figma
namespace Web2Figma

theorem chainFrom_le : ∀ (rs : List StyleRange) (lo hi : Nat), chainFrom lo rs hi → lo ≤ hi := by
  intro rs
  induction rs with
  | nil => intro lo hi h; exact h
  | cons r rs ih =>
    intro lo hi h
    obtain ⟨h1, h2, h3⟩ := h
    exact le_trans h1 (le_trans (le_of_lt h2) (ih _ _ h3))

theorem chainFrom_mono_lo : ∀ (rs : List StyleRange) (lo lo' hi : Nat), lo' ≤ lo →
    chainFrom lo rs hi → chainFrom lo' rs hi := by
  intro rs
  cases rs with
  | nil => intro lo lo' hi hle h; exact le_trans hle h
  | cons r rs =>
    intro lo lo' hi hle h
    exact ⟨le_trans hle h.1, h.2⟩

theorem chainFrom_append : ∀ (rs1 rs2 : List StyleRange) (lo mid hi : Nat),
    chainFrom lo rs1 mid → chainFrom mid rs2 hi → chainFrom lo (rs1 ++ rs2) hi := by
  intro rs1
  induction rs1 with
  | nil =>
    intro rs2 lo mid hi h1 h2
    exact chainFrom_mono_lo rs2 mid lo hi h1 h2
  | cons r rs ih =>
    intro rs2 lo mid hi h1 h2
    exact ⟨h1.1, h1.2.1, ih rs2 _ mid hi h1.2.2 h2⟩

theorem chainFrom_chainLe : ∀ (rs : List StyleRange) (lo hi : Nat),
    chainFrom lo rs hi → chainLe lo rs hi := by
  intro rs
  induction rs with
  | nil => intro lo hi h; exact h
  | cons r rs ih =>
    intro lo hi h
    exact ⟨h.1, le_of_lt h.2.1, ih _ _ h.2.2⟩

theorem chainLe_shift (k : Nat) : ∀ (rs : List StyleRange) (lo hi : Nat),
    chainFrom lo rs hi →
    chainLe (lo - k) (rs.map fun r => ⟨r.start - k, r.stop - k, r.listOptions⟩) (hi - k) := by
  intro rs
  induction rs with
  | nil => intro lo hi h; exact Nat.sub_le_sub_right h k
  | cons r rs ih =>
    intro lo hi h
    exact ⟨Nat.sub_le_sub_right h.1 k, Nat.sub_le_sub_right (le_of_lt h.2.1) k,
      ih _ _ h.2.2⟩

theorem chainLe_stamp (m : ListMarker) : ∀ (rs : List StyleRange) (lo hi : Nat),
    chainLe lo rs hi → chainLe lo (rs.map fun r => ⟨r.start, r.stop, some m⟩) hi := by
  intro rs
  induction rs with
  | nil => intro lo hi h; exact h
  | cons r rs ih =>
    intro lo hi h
    exact ⟨h.1, h.2.1, ih _ _ h.2.2⟩

mutual

theorem walkNode_chain (pws : Bool) (st : RTState) (n : DomNode) :
    ∃ u ex, walkNode pws st n = (st.1 ++ u, st.2 ++ ex) ∧
      chainFrom st.1.length ex (st.1.length + u.length) := by
  cases n with
  | text t =>
    rw [show walkNode pws st (.text t) =
      (let content := if pws then t.content else collapseWhitespace t.content false
       if content.length > 0 then
         (st.1 ++ content, st.2 ++ [⟨st.1.length, st.1.length + content.length, none⟩])
       else st) from rfl]
    dsimp only
    split
    all_goals
      split
      · rename_i hlen
        refine ⟨_, _, rfl, le_refl _, ?_, le_refl _⟩
        dsimp only
        omega
      · refine ⟨[], [], by simp, ?_⟩
        simp [chainFrom]
  | element e ifb cs =>
    rw [show walkNode pws st (.element e ifb cs) =
      (if e.displayNone then st
       else if e.tag = "BR".toList then (st.1 ++ ['\n'], st.2)
       else walkChildren e.preserveWs st cs) from rfl]
    split
    · refine ⟨[], [], by simp, by simp [chainFrom]⟩
    · split
      · refine ⟨['\n'], [], by simp, by simp [chainFrom]⟩
      · exact walkChildren_chain e.preserveWs st cs

theorem walkChildren_chain (pws : Bool) (st : RTState) (cs : List DomNode) :
    ∃ u ex, walkChildren pws st cs = (st.1 ++ u, st.2 ++ ex) ∧
      chainFrom st.1.length ex (st.1.length + u.length) := by
  cases cs with
  | nil =>
    refine ⟨[], [], by simp [walkChildren], by simp [chainFrom]⟩
  | cons c cs' =>
    obtain ⟨u1, ex1, heq1, hch1⟩ := walkNode_chain pws st c
    obtain ⟨u2, ex2, heq2, hch2⟩ := walkChildren_chain pws (walkNode pws st c) cs'
    rw [heq1] at heq2 hch2
    dsimp only at heq2 hch2
    refine ⟨u1 ++ u2, ex1 ++ ex2, ?_, ?_⟩
    · rw [show walkChildren pws st (c :: cs') = walkChildren pws (walkNode pws st c) cs'
        from rfl, heq1, heq2]
      simp
    · simp only [List.length_append] at hch2 ⊢
      have := chainFrom_append ex1 ex2 st.1.length (st.1.length + u1.length)
        (st.1.length + u1.length + u2.length) hch1 (by simpa using hch2)
      simpa [Nat.add_assoc] using this

end

end Web2Figma
namespace Web2Figma

theorem dropWhile_length_le (p : Char → Bool) : ∀ l : Str, (l.dropWhile p).length ≤ l.length := by
  intro l
  induction l with
  | nil => simp
  | cons a t ih =>
    rw [List.dropWhile_cons]
    split
    · exact le_trans ih (by simp)
    · simp

theorem jsTrim_length_le (s : Str) : (jsTrim s).length ≤ s.length := by
  unfold jsTrim
  calc (((s.dropWhile isWsChar).reverse.dropWhile isWsChar).reverse).length
      = ((s.dropWhile isWsChar).reverse.dropWhile isWsChar).length := by simp
    _ ≤ (s.dropWhile isWsChar).reverse.length := dropWhile_length_le _ _
    _ = (s.dropWhile isWsChar).length := by simp
    _ ≤ s.length := dropWhile_length_le _ _

/-- A list whose `dropWhile` is itself has a head failing the predicate, so
any of its prefixes also drops nothing. -/
theorem dropWhile_eq_self_of_append (p : Char → Bool) :
    ∀ (l1 l2 : Str), (l1 ++ l2).dropWhile p = l1 ++ l2 → l1.dropWhile p = l1 := by
  intro l1 l2 h
  cases l1 with
  | nil => rfl
  | cons a t =>
    rw [List.cons_append, List.dropWhile_cons] at h
    rw [List.dropWhile_cons]
    split
    · rename_i hp
      rw [if_pos hp] at h
      have := congrArg List.length h
      have hle := dropWhile_length_le p (t ++ l2)
      simp only [List.length_cons, List.length_append] at this hle
      omega
    · rfl

theorem dropWhile_jsTrim (s : Str) : (jsTrim s).dropWhile isWsChar = jsTrim s := by
  unfold jsTrim
  have hsplit : s.dropWhile isWsChar =
      ((s.dropWhile isWsChar).reverse.dropWhile isWsChar).reverse ++
        ((s.dropWhile isWsChar).reverse.takeWhile isWsChar).reverse := by
    conv_lhs => rw [← List.reverse_reverse (s.dropWhile isWsChar),
      ← List.takeWhile_append_dropWhile (p := isWsChar) (l := (s.dropWhile isWsChar).reverse)]
    rw [List.reverse_append]
  exact dropWhile_eq_self_of_append isWsChar _ _
    (by rw [← hsplit]; exact List.dropWhile_idempotent isWsChar s)

end Web2Figma
namespace Web2Figma

theorem trimAndShift_chain (u : Str) (ex : List StyleRange)
    (hch : chainFrom 0 ex u.length) :
    chainLe 0 (trimAndShift (u, ex)).2 (trimAndShift (u, ex)).1.length := by
  unfold trimAndShift
  dsimp only
  have htle := jsTrim_length_le u
  split
  · rename_i hdiff
    have hk : u.length - ((jsTrim u).dropWhile isWsChar).length = u.length - (jsTrim u).length := by
      rw [dropWhile_jsTrim]
    rw [hk]
    have := chainLe_shift (u.length - (jsTrim u).length) ex 0 u.length hch
    simpa [Nat.sub_sub_self htle] using this
  · rename_i hdiff
    have hlen : (jsTrim u).length = u.length := by omega
    rw [hlen]
    exact chainFrom_chainLe ex 0 u.length hch

theorem stampListOptions_chain (container : DomNode) (st : RTState) (hi : Nat)
    (hch : chainLe 0 st.2 hi) (hlen : st.1.length = hi) :
    chainLe 0 (stampListOptions container st).ranges
      (stampListOptions container st).text.length := by
  unfold stampListOptions
  cases container with
  | text t => simpa [hlen] using hch
  | element e ifb cs =>
    dsimp only
    split
    · split
      · rename_i m hm
        simpa [hlen] using chainLe_stamp m st.2 0 hi hch
      · simpa [hlen] using hch
    · simpa [hlen] using hch

/-- **C1**: every produced rich-text node satisfies the weakened offset
invariant `0 ≤ start ≤ end ≤ length(characters)` with ranges ordered and
non-overlapping (`chainLe`).  Strictness `start < end` is refuted by the
counterexample: the end-of-pass shift can collapse a range to width 0. -/
theorem richTextRanges_wellFormed (container : DomNode) :
    chainLe 0 (getRichTextData container).ranges (getRichTextData container).text.length := by
  unfold getRichTextData
  obtain ⟨u, ex, heq, hch⟩ := walkNode_chain false ([], []) container
  rw [heq]
  dsimp only at hch ⊢
  simp only [List.nil_append, List.length_nil, Nat.zero_add] at hch heq ⊢
  split
  · refine stampListOptions_chain container _ (trimAndShift (u, ex)).1.length ?_ rfl
    have := trimAndShift_chain u ex hch
    exact this
  · exact stampListOptions_chain container (u, ex) u.length
      (chainFrom_chainLe ex 0 u.length hch) rfl

/-- **C1** counterexample: a text container whose leading whitespace-only
text node is trimmed away yields a first range with start = stop, refuting
strict `start < end`. -/
theorem richTextRanges_strict_cex :
    ¬ (∀ r ∈ (getRichTextData exRichTrim).ranges, r.start < r.stop) := by
  decide

end Web2Figma

namespace Web2Figma

/-- **C9** witness: `rgb(12, 34, 56)` is a bounded match and its red
component 12/255 indeed lies in the unit range. -/
theorem parseColor_unitRange_witness :
    0 ≤ qdiv (12 : ℚ) 255 ∧ qdiv (12 : ℚ) 255 ≤ 1 :=
  parseColor_unitRange "rgb(12, 34, 56)".toList
    ⟨some (qdiv 12 255), some (qdiv 34 255), some (qdiv 56 255), some 1⟩
    (by decide) (by decide) (qdiv 12 255) (Or.inl (by decide))

/-- **C8** witness: a concretely parsed two-stop gradient string does
contain `linear-gradient(`. -/
theorem parseGradients_spec_witness :
    strIncludes ("linear-gradient(".toList)
      "linear-gradient(rgb(255, 0, 0), rgb(0, 0, 255))".toList = true :=
  parseGradients_spec.1 _ _ rfl (by decide)

/-- **C8** counterexample to even spacing across `[0,1]`: with a leading
`90deg` segment the two stops land at positions 0 and 1/2, not 0 and 1. -/
theorem parseGradients_positions_cex :
    (parseGradients
        (some "linear-gradient(90deg, rgb(255, 0, 0), rgb(0, 0, 255))".toList)).map
      (fun gs => gs.map fun g => g.gradientStops.map fun st => st.position)
      = .ok [[0, mkRat 1 2]] ∧ (mkRat 1 2 : ℚ) ≠ 1 := by
  decide

end Web2Figma
